import Mathlib

/-!
Verification of the ADR-Manager store module (src/src/plugins/store.js).

The store manipulates JavaScript objects through references and mutates them
in place, so the embedding models object identity explicitly: ADR objects and
Repository objects live in heaps indexed by natural-number references, and the
store state carries both heaps together with the fields of the Vue data object.
Lodash's underscore-has checks key presence (a key holding the value undefined
still counts as present), so the slot of each optional object key is an Option;
the originalMd slot is an Option of an Option because createNewAdr stores the
value undefined under a present key.

JSON serialization to local storage is modelled value-first: the persistence
slot holds the tree of plain data that JSON.stringify followed by JSON.parse
would produce.  JSON.stringify drops keys holding undefined and loses the
class tag, so parsed repositories are never instances of the Repository class;
the parsed objects carry isInstance = false.

External collaborators that are not part of this module (the parser functions
naturalCase2snakeCase and adr2md from parser.js, and the classes module) are
taken as parameters: the text transform is an arbitrary function, and the
boilerplate markdown produced for a fresh record is an arbitrary string.
Thrown JavaScript exceptions are modelled by an Option String paired with the
state the operation leaves behind at the moment of the throw.
-/

namespace AdrStore

/-- One JS object holding an ADR.  originalMd: none = key absent,
some none = key present holding undefined, some (some s) = string s.
editedMd and path: none = key absent.  id is a JS number, used as an integer. -/
structure AdrData where
  originalMd : Option (Option String)
  editedMd : Option String
  path : Option String
  id : Int
deriving DecidableEq, Repr

/-- One JS object holding a repository.  adrs holds references into the ADR
heap; addedAdrs and deletedAdrs are absent (none) until the store creates
them.  isInstance records whether the object is an instance of the Repository
class (JSON.parse produces plain objects, for which it is false). -/
structure RepoData where
  fullName : String
  activeBranch : String
  adrs : List Nat
  addedAdrs : Option (List Nat)
  deletedAdrs : Option (List Nat)
  isInstance : Bool
deriving DecidableEq, Repr

/-- The plain-data image of one ADR after JSON.stringify and JSON.parse:
keys holding undefined have been dropped, so originalMd is a plain option. -/
structure AdrJson where
  originalMd : Option String
  editedMd : Option String
  path : Option String
  id : Int
deriving DecidableEq, Repr

/-- The plain-data image of one repository after JSON.stringify and
JSON.parse (persisted layout: fullName, activeBranch, adrs, addedAdrs,
deletedAdrs; the class tag is lost). -/
structure RepoJson where
  fullName : String
  activeBranch : String
  adrs : List AdrJson
  addedAdrs : Option (List AdrJson)
  deletedAdrs : Option (List AdrJson)
deriving DecidableEq, Repr

/-- Events emitted with the Vue emit call. -/
inductive StoreEvent where
  | openAdrEvent (adr : Nat)
  | setModeEvent (mode : String)
deriving DecidableEq, Repr

/-- The whole store state: the two object heaps with their allocation
counters, the data fields of the Vue store object, the two local-storage
slots, and the log of emitted events. -/
structure StoreState where
  adrHeap : Nat → AdrData
  nextAdr : Nat
  repoHeap : Nat → RepoData
  nextRepo : Nat
  addedRepositories : List Nat
  currentRepository : Option Nat
  currentBranch : Option String
  currentlyEditedAdr : Option Nat
  mode : String
  activeBranch : Option String
  storageRepos : Option (List RepoJson)
  storageMode : Option String
  events : List StoreEvent

/-- Heap update at one reference. -/
def upd (f : Nat → α) (i : Nat) (v : α) : Nat → α :=
  fun j => if j = i then v else f j

/-- JS array indexing: arr[i] is undefined for a negative index. -/
def jsIndex (l : List α) (i : Int) : Option α :=
  if i < 0 then none else l.get? i.toNat

/-- The start position splice uses: negative indices count from the end,
clamped at 0; nonnegative indices are clamped at the length. -/
def jsSpliceStart (len : Nat) (i : Int) : Nat :=
  if i < 0 then ((len : Int) + i).toNat else min i.toNat len

/-- splice(i, 1): remove one element at the splice start position. -/
def jsSpliceRemove1 (l : List α) (i : Int) : List α :=
  let s := jsSpliceStart l.length i
  l.take s ++ l.drop (s + 1)

/-- splice(i, 1, v): replace one element at the splice start position. -/
def jsSpliceReplace1 (l : List α) (i : Int) (v : α) : List α :=
  let s := jsSpliceStart l.length i
  l.take s ++ [v] ++ l.drop (s + 1)

/-- findIndex: the found position, or -1. -/
def jsFindIndex (l : List α) (p : α → Bool) : Int :=
  match l.findIdx? p with
  | some i => (i : Int)
  | none => -1

/-- toString of a JS number holding an integer. -/
def intToString (i : Int) : String :=
  if i < 0 then "-" ++ Nat.repr i.natAbs else Nat.repr i.toNat

/-- padStart(4, the zero character). -/
def padStart4 (s : String) : String :=
  if s.length ≥ 4 then s else String.mk (List.replicate (4 - s.length) '0') ++ s

/-- isValidAdr from store.js: lodash has-checks for the originalMd, editedMd
and path keys (presence, not type). -/
def isValidAdr (d : AdrData) : Bool :=
  d.originalMd.isSome && d.editedMd.isSome && d.path.isSome

/-- isValidRepoList from store.js: every repository is an instance of the
Repository class and every one of its adrs passes isValidAdr. -/
def isValidRepoList (σ : StoreState) (repos : List Nat) : Bool :=
  repos.all fun ρ =>
    (σ.repoHeap ρ).isInstance && (σ.repoHeap ρ).adrs.all fun r => isValidAdr (σ.adrHeap r)

/-- JSON.stringify then JSON.parse of one ADR object: a key holding
undefined is dropped. -/
def stringifyAdr (σ : StoreState) (r : Nat) : AdrJson :=
  { originalMd := (σ.adrHeap r).originalMd.bind id
    editedMd := (σ.adrHeap r).editedMd
    path := (σ.adrHeap r).path
    id := (σ.adrHeap r).id }

/-- JSON.stringify then JSON.parse of one repository object: the class tag is
lost and the nested ADR objects are serialized as separate copies. -/
def stringifyRepo (σ : StoreState) (ρ : Nat) : RepoJson :=
  { fullName := (σ.repoHeap ρ).fullName
    activeBranch := (σ.repoHeap ρ).activeBranch
    adrs := (σ.repoHeap ρ).adrs.map (stringifyAdr σ)
    addedAdrs := ((σ.repoHeap ρ).addedAdrs).map fun l => l.map (stringifyAdr σ)
    deletedAdrs := ((σ.repoHeap ρ).deletedAdrs).map fun l => l.map (stringifyAdr σ) }

/-- updateLocalStorageRepositories: write the JSON image of the added
repositories into the local-storage slot. -/
def updateLocalStorageRepositories (σ : StoreState) : StoreState :=
  { σ with storageRepos := some (σ.addedRepositories.map (stringifyRepo σ)) }

/-- The repair condition of assertSomeAdrIsOpened, negated: the currently
edited ADR exists, is valid, and is contained by reference in the adrs of
some added repository. -/
def adrIsOpenedOk (σ : StoreState) : Bool :=
  match σ.currentlyEditedAdr with
  | none => false
  | some r =>
    isValidAdr (σ.adrHeap r) &&
      σ.addedRepositories.any fun ρ => (σ.repoHeap ρ).adrs.contains r

/-- openAdr from store.js.  The argument may be undefined (none): comparison
with !== against the current ADR, then a reference-membership search over the
added repositories, then the validity check; on success the three selection
fields are set and the open event is emitted, otherwise nothing happens. -/
def openAdr (σ : StoreState) (adr : Option Nat) : StoreState :=
  if adr ≠ σ.currentlyEditedAdr then
    match adr with
    | some r =>
      match σ.addedRepositories.find? (fun ρ => (σ.repoHeap ρ).adrs.contains r) with
      | some ρ =>
        if isValidAdr (σ.adrHeap r) then
          { σ with
            currentRepository := some ρ
            currentBranch := some (σ.repoHeap ρ).activeBranch
            currentlyEditedAdr := some r
            events := σ.events ++ [StoreEvent.openAdrEvent r] }
        else σ
      | none => σ
    | none => σ
  else σ

/-- openAnyAdr from store.js: the first added repository with a nonempty adrs
list, and its first ADR, passed to openAdr. -/
def openAnyAdr (σ : StoreState) : StoreState :=
  match σ.addedRepositories.find? (fun ρ => !(σ.repoHeap ρ).adrs.isEmpty) with
  | some ρ => openAdr σ (some (((σ.repoHeap ρ).adrs).headD 0))
  | none => σ

/-- assertSomeAdrIsOpened from store.js: if the current ADR is missing,
invalid or not contained in any added repository, clear the three selection
fields and try openAnyAdr. -/
def assertSomeAdrIsOpened (σ : StoreState) : StoreState :=
  if adrIsOpenedOk σ then σ
  else
    openAnyAdr
      { σ with currentlyEditedAdr := none, currentRepository := none, currentBranch := none }

/-- addRepositories from store.js: collect the incoming repositories whose
fullName is already present; if any, throw the collision message listing
their names before touching anything; otherwise concatenate, persist, and
run the repair. -/
def addRepositories (σ : StoreState) (repoList : List Nat) : StoreState × Option String :=
  let alreadyAddedRepos := repoList.filter fun ρ =>
    (σ.addedRepositories.map fun ρ0 => (σ.repoHeap ρ0).fullName).contains (σ.repoHeap ρ).fullName
  if alreadyAddedRepos.length > 0 then
    (σ, some ("I won't add an already added repository to the store! " ++
      String.intercalate ", " (alreadyAddedRepos.map fun ρ => (σ.repoHeap ρ).fullName)))
  else
    let σ1 := { σ with addedRepositories := σ.addedRepositories ++ repoList }
    let σ2 := updateLocalStorageRepositories σ1
    (assertSomeAdrIsOpened σ2, none)

/-- removeRepository from store.js: keep the repositories whose fullName
differs, run the repair, persist. -/
def removeRepository (σ : StoreState) (repoToRemove : Nat) : StoreState :=
  let σ1 := { σ with
    addedRepositories := σ.addedRepositories.filter fun ρ =>
      (σ.repoHeap ρ).fullName != (σ.repoHeap repoToRemove).fullName }
  updateLocalStorageRepositories (assertSomeAdrIsOpened σ1)

/-- updateRepository from store.js.  The entry with the same fullName is
located (index -1 when absent), the old entry is read, splice replaces one
entry at that index (for index -1 this replaces the last entry), and only
then is the old entry's adrs list read: when the name was absent that read
throws on undefined, after the splice already mutated the list.  When the
replaced entry contains the currently edited ADR, the ADR at the same path
inside the passed repository is opened; then the list is persisted. -/
def updateRepository (σ : StoreState) (updatedRepository : Nat) : StoreState × Option String :=
  let index : Int := jsFindIndex σ.addedRepositories fun ρ =>
    (σ.repoHeap ρ).fullName == (σ.repoHeap updatedRepository).fullName
  let oldRepo : Option Nat := jsIndex σ.addedRepositories index
  let σ1 := { σ with
    addedRepositories := jsSpliceReplace1 σ.addedRepositories index updatedRepository }
  match oldRepo with
  | none => (σ1, some "TypeError")
  | some ρold =>
    let σ2 :=
      match σ1.currentlyEditedAdr with
      | some r =>
        if (σ1.repoHeap ρold).adrs.contains r then
          openAdr σ1 ((σ1.repoHeap updatedRepository).adrs.find? fun a =>
            (σ1.adrHeap a).path == (σ1.adrHeap r).path)
        else σ1
      | none => σ1
    (updateLocalStorageRepositories σ2, none)

/-- setActiveBranch from store.js: sets a top-level activeBranch field on the
store itself, distinct from currentBranch. -/
def setActiveBranch (σ : StoreState) (b : String) : StoreState :=
  { σ with activeBranch := some b }

/-- The final path segment: split on the separator and pop. -/
def jsBasename (p : String) : String :=
  (p.splitOn "/").getLastD ""

/-- The scan openAdrBy performs over a repository's adrs: each path is split,
so an ADR object without a path key throws; otherwise the first ADR whose
final path segment equals the requested name is returned. -/
def findAdrByName (σ : StoreState) (adrs : List Nat) (adrName : String) :
    Except Unit (Option Nat) :=
  match adrs with
  | [] => Except.ok none
  | r :: rest =>
    match (σ.adrHeap r).path with
    | none => Except.error ()
    | some p =>
      if jsBasename p == adrName then Except.ok (some r)
      else findAdrByName σ rest adrName

/-- openAdrBy from store.js: look up the repository by fullName, then the ADR
by final path segment; open and return it when found, return undefined
otherwise.  The middle component is the returned value, the last the thrown
exception. -/
def openAdrBy (σ : StoreState) (repoFullName adrName : String) :
    StoreState × Option Nat × Option String :=
  match σ.addedRepositories.find? (fun ρ => (σ.repoHeap ρ).fullName == repoFullName) with
  | none => (σ, none, none)
  | some ρ =>
    match findAdrByName σ (σ.repoHeap ρ).adrs adrName with
    | Except.error _ => (σ, none, some "TypeError")
    | Except.ok none => (σ, none, none)
    | Except.ok (some a) => (openAdr σ (some a), some a, none)

/-- The first line of the markdown with leading hash signs stripped and the
result trimmed. -/
def titleOfMd (md : String) : String :=
  (((md.splitOn "\n").headD "").dropWhile (fun c => c == '#')).trim

/-- Replace the last entry of a nonempty segment list. -/
def setLast (l : List String) (v : String) : List String :=
  l.dropLast ++ [v]

/-- updateMdOfCurrentAdr from store.js.  Reading editedMd of undefined throws
when no ADR is open.  The markdown is stored; when the current repository
exists, has an addedAdrs list, and that list contains the current ADR by
reference, the file name is recomputed from the markdown title using the
external text transform n2s; finally the repository list is persisted. -/
def updateMdOfCurrentAdr (n2s : String → String) (σ : StoreState) (md : String) :
    StoreState × Option String :=
  match σ.currentlyEditedAdr with
  | none => (σ, some "TypeError")
  | some r =>
    let σ1 := { σ with adrHeap := upd σ.adrHeap r { σ.adrHeap r with editedMd := some md } }
    let rename : Bool :=
      match σ1.currentRepository with
      | none => false
      | some ρ =>
        match (σ1.repoHeap ρ).addedAdrs with
        | none => false
        | some added => added.contains r
    if rename then
      match (σ1.adrHeap r).path with
      | none => (σ1, some "TypeError")
      | some p =>
        let segs := p.splitOn "/"
        let fname := padStart4 (intToString (σ1.adrHeap r).id) ++ "-" ++
          n2s (titleOfMd md) ++ ".md"
        let newPath := String.intercalate "/" (setLast segs fname)
        let σ2 := { σ1 with
          adrHeap := upd σ1.adrHeap r { σ1.adrHeap r with path := some newPath } }
        (updateLocalStorageRepositories σ2, none)
    else (updateLocalStorageRepositories σ1, none)

/-- createNewAdr from store.js.  When the passed repository is one of the
added repositories by reference: the next id is one more than the spread
maximum of the existing ids and -1, a fresh ADR object is allocated with the
boilerplate markdown tmpl, an undefined originalMd under a present key, and
the four-digit unnamed path; it is pushed onto adrs and onto addedAdrs
(created when absent) and returned — the persistence call after the return
is then never reached.  When the repository is not added, the list is
persisted and undefined is returned. -/
def createNewAdr (tmpl : String) (σ : StoreState) (repo : Nat) : StoreState × Option Nat :=
  if σ.addedRepositories.contains repo then
    let md := tmpl
    let id : Int := (((σ.repoHeap repo).adrs.map fun r => (σ.adrHeap r).id).foldl max (-1)) + 1
    let newAdr : AdrData :=
      { originalMd := some none
        editedMd := some md
        id := id
        path := some ("docs/adr/" ++ padStart4 (intToString id) ++ "-unnamed.md") }
    let newRef := σ.nextAdr
    let repoData := σ.repoHeap repo
    let repoData1 := { repoData with
      adrs := repoData.adrs ++ [newRef]
      addedAdrs := some (repoData.addedAdrs.getD [] ++ [newRef]) }
    ({ σ with
        adrHeap := upd σ.adrHeap newRef newAdr
        nextAdr := σ.nextAdr + 1
        repoHeap := upd σ.repoHeap repo repoData1 }, some newRef)
  else
    (updateLocalStorageRepositories σ, none)

/-- deleteAdr from store.js.  findIndex with loose equality (reference
equality on objects) gives the index, -1 when absent; deletedAdrs is created
as an empty list when absent; the concat of the spliced-out element onto
deletedAdrs is computed and discarded, so deletedAdrs is not extended; splice
removes one element at the index (the last element for index -1 on a
nonempty list); then the repair runs. -/
def deleteAdr (σ : StoreState) (adr : Nat) (repo : Nat) : StoreState :=
  let adrIndex : Int := jsFindIndex (σ.repoHeap repo).adrs fun r => r == adr
  let repoData := σ.repoHeap repo
  let repoData1 := { repoData with deletedAdrs := some (repoData.deletedAdrs.getD []) }
  let repoData2 := { repoData1 with adrs := jsSpliceRemove1 repoData1.adrs adrIndex }
  assertSomeAdrIsOpened { σ with repoHeap := upd σ.repoHeap repo repoData2 }

/-- setMode from store.js: when the mode is one of the three recognized
values, store it, persist it, and emit the set-mode event; otherwise only
log. -/
def setMode (σ : StoreState) (mode : String) : StoreState :=
  if ["basic", "advanced", "professional"].contains mode then
    { σ with
      mode := mode
      storageMode := some mode
      events := σ.events ++ [StoreEvent.setModeEvent mode] }
  else σ

/-- JSON.parse of one serialized ADR: a fresh object is allocated; a present
originalMd string key stays present, a dropped key stays absent. -/
def allocAdr (σ : StoreState) (j : AdrJson) : StoreState × Nat :=
  ({ σ with
      adrHeap := upd σ.adrHeap σ.nextAdr
        { originalMd := j.originalMd.map some
          editedMd := j.editedMd
          path := j.path
          id := j.id }
      nextAdr := σ.nextAdr + 1 }, σ.nextAdr)

/-- JSON.parse of a list of serialized ADRs. -/
def allocAdrs : StoreState → List AdrJson → StoreState × List Nat
  | σ, [] => (σ, [])
  | σ, j :: js =>
    let p := allocAdr σ j
    let q := allocAdrs p.1 js
    (q.1, p.2 :: q.2)

/-- JSON.parse of an optional list of serialized ADRs. -/
def allocOptAdrs (σ : StoreState) : Option (List AdrJson) → StoreState × Option (List Nat)
  | none => (σ, none)
  | some js =>
    let p := allocAdrs σ js
    (p.1, some p.2)

/-- JSON.parse of one serialized repository: plain objects come back, never
instances of the Repository class. -/
def allocRepo (σ : StoreState) (j : RepoJson) : StoreState × Nat :=
  let p1 := allocAdrs σ j.adrs
  let p2 := allocOptAdrs p1.1 j.addedAdrs
  let p3 := allocOptAdrs p2.1 j.deletedAdrs
  ({ p3.1 with
      repoHeap := upd p3.1.repoHeap p3.1.nextRepo
        { fullName := j.fullName
          activeBranch := j.activeBranch
          adrs := p1.2
          addedAdrs := p2.2
          deletedAdrs := p3.2
          isInstance := false }
      nextRepo := p3.1.nextRepo + 1 }, p3.1.nextRepo)

/-- JSON.parse of the serialized repository list. -/
def allocRepos : StoreState → List RepoJson → StoreState × List Nat
  | σ, [] => (σ, [])
  | σ, j :: js =>
    let p := allocRepo σ j
    let q := allocRepos p.1 js
    (q.1, p.2 :: q.2)

/-- getItem of the mode slot, with the or-basic default (the empty string is
falsy in JS, so it also falls back to basic). -/
def jsOrBasic : Option String → String
  | some m => if m = "" then "basic" else m
  | none => "basic"

/-- reload from store.js: when the repositories slot is present, parse it,
validate the parsed objects, and on success pass them to addRepositories
(whose collision throw would propagate, skipping the mode line); invalid
data is only logged.  Finally the mode is restored with the basic default. -/
def reload (σ : StoreState) : StoreState × Option String :=
  let step : StoreState × Option String :=
    match σ.storageRepos with
    | none => (σ, none)
    | some data =>
      let p := allocRepos σ data
      if isValidRepoList p.1 p.2 then addRepositories p.1 p.2
      else (p.1, none)
  match step with
  | (σ1, none) => ({ σ1 with mode := jsOrBasic σ1.storageMode }, none)
  | (σ1, some e) => (σ1, some e)

/-- The public operations of the store, with their arguments.  Repository
and ADR arguments are references to heap objects, openAdr may be passed
undefined. -/
inductive StoreOp where
  | reloadOp
  | updateLocalStorageRepositoriesOp
  | addRepositoriesOp (repoList : List Nat)
  | removeRepositoryOp (repo : Nat)
  | updateRepositoryOp (repo : Nat)
  | setActiveBranchOp (branch : String)
  | assertSomeAdrIsOpenedOp
  | openAnyAdrOp
  | openAdrByOp (repoFullName : String) (adrName : String)
  | openAdrOp (adr : Option Nat)
  | updateMdOfCurrentAdrOp (md : String)
  | createNewAdrOp (repo : Nat)
  | deleteAdrOp (adr : Nat) (repo : Nat)
  | setModeOp (mode : String)
deriving DecidableEq, Repr

/-- Run one public operation; the state an operation that throws leaves
behind is kept.  n2s is the external text transform, tmpl the boilerplate
markdown of a fresh record. -/
def applyOp (n2s : String → String) (tmpl : String) (σ : StoreState) : StoreOp → StoreState
  | StoreOp.reloadOp => (reload σ).1
  | StoreOp.updateLocalStorageRepositoriesOp => updateLocalStorageRepositories σ
  | StoreOp.addRepositoriesOp repoList => (addRepositories σ repoList).1
  | StoreOp.removeRepositoryOp repo => removeRepository σ repo
  | StoreOp.updateRepositoryOp repo => (updateRepository σ repo).1
  | StoreOp.setActiveBranchOp b => setActiveBranch σ b
  | StoreOp.assertSomeAdrIsOpenedOp => assertSomeAdrIsOpened σ
  | StoreOp.openAnyAdrOp => openAnyAdr σ
  | StoreOp.openAdrByOp rn an => (openAdrBy σ rn an).1
  | StoreOp.openAdrOp adr => openAdr σ adr
  | StoreOp.updateMdOfCurrentAdrOp md => (updateMdOfCurrentAdr n2s σ md).1
  | StoreOp.createNewAdrOp repo => (createNewAdr tmpl σ repo).1
  | StoreOp.deleteAdrOp adr repo => deleteAdr σ adr repo
  | StoreOp.setModeOp m => setMode σ m

/-- The selection invariant of the spec: whenever the currently edited ADR
is set, it is a valid ADR, it is contained by reference in the adrs of a
repository that is in the added repositories, the current repository is that
repository, and the current branch equals its activeBranch. -/
def SelectionInvariant (σ : StoreState) : Prop :=
  ∀ r, σ.currentlyEditedAdr = some r →
    isValidAdr (σ.adrHeap r) = true ∧
    ∃ ρ, ρ ∈ σ.addedRepositories ∧
      r ∈ (σ.repoHeap ρ).adrs ∧
      σ.currentRepository = some ρ ∧
      σ.currentBranch = some (σ.repoHeap ρ).activeBranch

/-- Structural well-formedness of a store state as a JS heap: every
reference reachable from the added repositories and from the current
selection points below the allocation counters (real objects are allocated),
and distinct added repositories own disjoint adrs lists (the data model has
each repository own its ADR sequence). -/
def WellFormedStore (σ : StoreState) : Prop :=
  (∀ ρ, ρ ∈ σ.addedRepositories →
    ρ < σ.nextRepo ∧ ∀ r, r ∈ (σ.repoHeap ρ).adrs → r < σ.nextAdr) ∧
  (∀ r, σ.currentlyEditedAdr = some r → r < σ.nextAdr) ∧
  (∀ ρ1 ∈ σ.addedRepositories, ∀ ρ2 ∈ σ.addedRepositories, ρ1 ≠ ρ2 →
    ∀ r ∈ (σ.repoHeap ρ1).adrs, r ∉ (σ.repoHeap ρ2).adrs)

/-- Side conditions under which an operation is claimed to preserve the
selection invariant.  Only updateRepository needs them: a repository with
the same fullName must exist (the precondition the spec states), and when
the replaced entry holds the currently edited ADR, the passed repository
must contain, at the same path, a valid ADR different from the current
one. -/
def opOK (σ : StoreState) : StoreOp → Prop
  | StoreOp.updateRepositoryOp ρu =>
    ∃ i, (σ.addedRepositories.findIdx? fun ρ =>
        (σ.repoHeap ρ).fullName == (σ.repoHeap ρu).fullName) = some i ∧
      ∀ r ρold, σ.currentlyEditedAdr = some r →
        σ.addedRepositories.get? i = some ρold →
        (σ.repoHeap ρold).adrs.contains r = true →
        ∃ a, ((σ.repoHeap ρu).adrs.find? fun a =>
            (σ.adrHeap a).path == (σ.adrHeap r).path) = some a ∧
          a ≠ r ∧ isValidAdr (σ.adrHeap a) = true
  | _ => True

/-- An ADR object with no keys set. -/
def adrDefault : AdrData :=
  { originalMd := none, editedMd := none, path := none, id := 0 }

/-- A repository object with no ADRs. -/
def repoDefault : RepoData :=
  { fullName := "", activeBranch := "", adrs := [], addedAdrs := none,
    deletedAdrs := none, isInstance := false }

/-- A freshly constructed store: empty heaps, no repositories, nothing
selected, basic mode, empty storage. -/
def exampleStore : StoreState :=
  { adrHeap := fun _ => adrDefault, nextAdr := 0
    repoHeap := fun _ => repoDefault, nextRepo := 0
    addedRepositories := [], currentRepository := none, currentBranch := none
    currentlyEditedAdr := none, mode := "basic", activeBranch := none
    storageRepos := none, storageMode := none, events := [] }

/-- A store holding one repository with two ADR objects, used to evaluate
deleteAdr at concrete inputs. -/
def exampleStoreB : StoreState :=
  { exampleStore with
    adrHeap := fun r =>
      if r = 0 then
        { originalMd := some (some "a"), editedMd := some "a",
          path := some "docs/adr/0000-a.md", id := 0 }
      else
        { originalMd := some (some "b"), editedMd := some "b",
          path := some "docs/adr/0001-b.md", id := 1 }
    nextAdr := 2
    repoHeap := fun _ =>
      { repoDefault with fullName := "org/repo", activeBranch := "main", adrs := [0, 1] }
    nextRepo := 1
    addedRepositories := [0] }

/-- openAdr either leaves the state untouched, or the argument is a valid
ADR contained in a found added repository and the three selection fields are
set from that repository with the open event emitted. -/
theorem openAdr_cases (σ : StoreState) (a : Option Nat) :
    openAdr σ a = σ ∨
    ∃ r ρ, a = some r ∧
      σ.addedRepositories.find? (fun ρ0 => (σ.repoHeap ρ0).adrs.contains r) = some ρ ∧
      isValidAdr (σ.adrHeap r) = true ∧
      openAdr σ a =
        { σ with
          currentRepository := some ρ
          currentBranch := some (σ.repoHeap ρ).activeBranch
          currentlyEditedAdr := some r
          events := σ.events ++ [StoreEvent.openAdrEvent r] } := by
  unfold openAdr
  split
  · split
    · rename_i r hne
      split
      · rename_i ρ hf
        split
        · rename_i hv
          exact Or.inr ⟨r, ρ, rfl, hf, hv, rfl⟩
        · exact Or.inl rfl
      · exact Or.inl rfl
    · exact Or.inl rfl
  · exact Or.inl rfl

/-- openAdr only touches the three selection fields and the event log. -/
theorem openAdr_frame (σ : StoreState) (a : Option Nat) :
    (openAdr σ a).adrHeap = σ.adrHeap ∧ (openAdr σ a).nextAdr = σ.nextAdr ∧
    (openAdr σ a).repoHeap = σ.repoHeap ∧ (openAdr σ a).nextRepo = σ.nextRepo ∧
    (openAdr σ a).addedRepositories = σ.addedRepositories ∧
    (openAdr σ a).mode = σ.mode ∧ (openAdr σ a).activeBranch = σ.activeBranch ∧
    (openAdr σ a).storageRepos = σ.storageRepos ∧
    (openAdr σ a).storageMode = σ.storageMode := by
  rcases openAdr_cases σ a with h | ⟨r, ρ, _, _, _, h⟩ <;> rw [h] <;>
    exact ⟨rfl, rfl, rfl, rfl, rfl, rfl, rfl, rfl, rfl⟩

/-- openAnyAdr only touches the three selection fields and the event log. -/
theorem openAnyAdr_frame (σ : StoreState) :
    (openAnyAdr σ).adrHeap = σ.adrHeap ∧ (openAnyAdr σ).nextAdr = σ.nextAdr ∧
    (openAnyAdr σ).repoHeap = σ.repoHeap ∧ (openAnyAdr σ).nextRepo = σ.nextRepo ∧
    (openAnyAdr σ).addedRepositories = σ.addedRepositories ∧
    (openAnyAdr σ).mode = σ.mode ∧ (openAnyAdr σ).activeBranch = σ.activeBranch ∧
    (openAnyAdr σ).storageRepos = σ.storageRepos ∧
    (openAnyAdr σ).storageMode = σ.storageMode := by
  unfold openAnyAdr
  cases hf : σ.addedRepositories.find? (fun ρ => !(σ.repoHeap ρ).adrs.isEmpty) with
  | none => exact ⟨rfl, rfl, rfl, rfl, rfl, rfl, rfl, rfl, rfl⟩
  | some ρ => exact openAdr_frame σ _

/-- assertSomeAdrIsOpened only touches the three selection fields and the
event log. -/
theorem assertSomeAdrIsOpened_frame (σ : StoreState) :
    (assertSomeAdrIsOpened σ).adrHeap = σ.adrHeap ∧
    (assertSomeAdrIsOpened σ).nextAdr = σ.nextAdr ∧
    (assertSomeAdrIsOpened σ).repoHeap = σ.repoHeap ∧
    (assertSomeAdrIsOpened σ).nextRepo = σ.nextRepo ∧
    (assertSomeAdrIsOpened σ).addedRepositories = σ.addedRepositories ∧
    (assertSomeAdrIsOpened σ).mode = σ.mode ∧
    (assertSomeAdrIsOpened σ).activeBranch = σ.activeBranch ∧
    (assertSomeAdrIsOpened σ).storageRepos = σ.storageRepos ∧
    (assertSomeAdrIsOpened σ).storageMode = σ.storageMode := by
  unfold assertSomeAdrIsOpened
  split
  · exact ⟨rfl, rfl, rfl, rfl, rfl, rfl, rfl, rfl, rfl⟩
  · exact openAnyAdr_frame _

/-- splice(-1, 1) drops the last element (and nothing on an empty list). -/
theorem jsSpliceRemove1_neg_one (l : List α) : jsSpliceRemove1 l (-1) = l.dropLast := by
  cases l with
  | nil => rfl
  | cons x xs =>
    have h1 : (((x :: xs).length : Int) + -1).toNat = xs.length := by
      simp [List.length_cons]
    simp only [jsSpliceRemove1, jsSpliceStart]
    rw [if_pos (by norm_num : (-1 : Int) < 0), h1, List.dropLast_eq_take]
    have h2 : (x :: xs).drop (xs.length + 1) = [] :=
      List.drop_eq_nil_of_le (by simp [List.length_cons])
    rw [h2, List.append_nil]
    simp [List.length_cons]

/-- findIndex returns -1 when the reference is not in the list. -/
theorem jsFindIndex_eq_neg_one_of_not_mem (l : List Nat) (a : Nat) (h : a ∉ l) :
    jsFindIndex l (fun r => r == a) = -1 := by
  unfold jsFindIndex
  rw [List.findIdx?_eq_none_iff.mpr]
  intro x hx
  simp only [beq_eq_false_iff_ne, ne_eq]
  intro hxa
  exact h (hxa ▸ hx)

/-- C8: deleteAdr never extends deletedAdrs: the concatenation of the
spliced-out record onto repo.deletedAdrs is discarded, so after the call the
list equals the old one, at most created as an empty list when it was
absent. -/
theorem c8_deleteAdr_deletedAdrs_never_grows (σ : StoreState) (adr repo : Nat) :
    ((deleteAdr σ adr repo).repoHeap repo).deletedAdrs =
      some (((σ.repoHeap repo).deletedAdrs).getD []) := by
  unfold deleteAdr
  rw [(assertSomeAdrIsOpened_frame _).2.2.1]
  simp [upd]

/-- C10: when the given ADR object is not referenced in repo.adrs, deleteAdr
passes -1 to splice, which removes the last element: the list becomes its
dropLast (one element shorter when nonempty, still empty when empty). -/
theorem c10_deleteAdr_not_found_removes_last (σ : StoreState) (adr repo : Nat)
    (h : adr ∉ (σ.repoHeap repo).adrs) :
    ((deleteAdr σ adr repo).repoHeap repo).adrs = ((σ.repoHeap repo).adrs).dropLast ∧
    ((σ.repoHeap repo).adrs ≠ [] →
      ((deleteAdr σ adr repo).repoHeap repo).adrs.length + 1 =
        ((σ.repoHeap repo).adrs).length) := by
  have hmain : ((deleteAdr σ adr repo).repoHeap repo).adrs =
      ((σ.repoHeap repo).adrs).dropLast := by
    unfold deleteAdr
    rw [(assertSomeAdrIsOpened_frame _).2.2.1]
    simp only [upd, if_pos rfl]
    rw [jsFindIndex_eq_neg_one_of_not_mem _ _ h]
    exact jsSpliceRemove1_neg_one _
  refine ⟨hmain, fun hne => ?_⟩
  rw [hmain, List.length_dropLast]
  have : 0 < ((σ.repoHeap repo).adrs).length := List.length_pos.mpr hne
  omega

/-- Witness for C10 at a concrete input: ADR reference 5 is not in the
repository, whose adrs list [0, 1] shrinks to [0]. -/
theorem c10_witness :
    5 ∉ (exampleStoreB.repoHeap 0).adrs ∧
    ((deleteAdr exampleStoreB 5 0).repoHeap 0).adrs = [0] := by
  refine ⟨by decide, ?_⟩
  have h := (c10_deleteAdr_not_found_removes_last exampleStoreB 5 0 (by decide)).1
  simpa using h

/-- C9: setMode with one of the three recognized values stores the mode,
persists it and emits the set-mode notification; any other value leaves the
whole state unchanged. -/
theorem c9_setMode_behavior (σ : StoreState) (m : String) :
    (m ∈ ["basic", "advanced", "professional"] →
      setMode σ m =
        { σ with mode := m, storageMode := some m,
                 events := σ.events ++ [StoreEvent.setModeEvent m] }) ∧
    (m ∉ ["basic", "advanced", "professional"] → setMode σ m = σ) := by
  constructor <;> intro h <;> simp [setMode, h]

/-- Witness for C9: setMode at the recognized value advanced and at the
unrecognized value bogus, on a fresh store. -/
theorem c9_witness :
    ("advanced" ∈ ["basic", "advanced", "professional"] ∧
      setMode exampleStore "advanced" =
        { exampleStore with mode := "advanced", storageMode := some "advanced",
                            events := [StoreEvent.setModeEvent "advanced"] }) ∧
    ("bogus" ∉ ["basic", "advanced", "professional"] ∧
      setMode exampleStore "bogus" = exampleStore) := by
  refine ⟨⟨by decide, ?_⟩, ⟨by decide, ?_⟩⟩
  · have h := (c9_setMode_behavior exampleStore "advanced").1 (by decide)
    simpa [exampleStore] using h
  · exact (c9_setMode_behavior exampleStore "bogus").2 (by decide)

/-- The fold of max is at least its initial value. -/
theorem le_foldl_max (a : Int) (l : List Int) : a ≤ l.foldl max a := by
  induction l generalizing a with
  | nil => exact le_refl a
  | cons x xs ih => exact le_trans (le_max_left a x) (ih (max a x))

/-- The fold of max dominates every list element. -/
theorem mem_le_foldl_max (a : Int) (l : List Int) (x : Int) (hx : x ∈ l) :
    x ≤ l.foldl max a := by
  induction l generalizing a with
  | nil => cases hx
  | cons y ys ih =>
    rw [List.foldl_cons]
    rcases List.mem_cons.mp hx with h | h
    · subst h
      exact le_trans (le_max_right a x) (le_foldl_max (max a x) ys)
    · exact ih (max a y) h

/-- The fold of max is the initial value or a list element. -/
theorem foldl_max_mem (a : Int) (l : List Int) :
    l.foldl max a = a ∨ l.foldl max a ∈ l := by
  induction l generalizing a with
  | nil => exact Or.inl rfl
  | cons x xs ih =>
    rcases ih (max a x) with h | h
    · rcases max_choice a x with hm | hm
      · rw [List.foldl_cons, h, hm]; exact Or.inl rfl
      · rw [List.foldl_cons, h, hm]; exact Or.inr (List.mem_cons_self x xs)
    · exact Or.inr (List.mem_cons_of_mem x h)

/-- What C5 claims about a successful createNewAdr: the returned reference
is the fresh object; its originalMd key is present holding undefined; its id
is 0 for an empty repository and one more than the maximum existing id
otherwise; its path is the four-digit zero-padded unnamed path; and the new
reference is appended to adrs and to addedAdrs (created when absent). -/
def createNewAdrPost (tmpl : String) (σ : StoreState) (repo : Nat) : Prop :=
  (createNewAdr tmpl σ repo).2 = some σ.nextAdr ∧
  ((createNewAdr tmpl σ repo).1.adrHeap σ.nextAdr).originalMd = some none ∧
  ((createNewAdr tmpl σ repo).1.adrHeap σ.nextAdr).editedMd = some tmpl ∧
  ((σ.repoHeap repo).adrs = [] →
    ((createNewAdr tmpl σ repo).1.adrHeap σ.nextAdr).id = 0) ∧
  ((σ.repoHeap repo).adrs ≠ [] →
    ∃ m, m ∈ (σ.repoHeap repo).adrs.map (fun r => (σ.adrHeap r).id) ∧
      (∀ j ∈ (σ.repoHeap repo).adrs.map (fun r => (σ.adrHeap r).id), j ≤ m) ∧
      ((createNewAdr tmpl σ repo).1.adrHeap σ.nextAdr).id = m + 1) ∧
  ((createNewAdr tmpl σ repo).1.adrHeap σ.nextAdr).path =
    some ("docs/adr/" ++
      padStart4 (intToString ((createNewAdr tmpl σ repo).1.adrHeap σ.nextAdr).id) ++
      "-unnamed.md") ∧
  ((createNewAdr tmpl σ repo).1.repoHeap repo).adrs =
    (σ.repoHeap repo).adrs ++ [σ.nextAdr] ∧
  ((createNewAdr tmpl σ repo).1.repoHeap repo).addedAdrs =
    some (((σ.repoHeap repo).addedAdrs).getD [] ++ [σ.nextAdr])

/-- C5: createNewAdr on a repository that is one of the added repositories
by reference builds the record C5 describes, provided the existing ids
respect the data model (nonnegative). -/
theorem c5_createNewAdr_success (tmpl : String) (σ : StoreState) (repo : Nat)
    (hmem : repo ∈ σ.addedRepositories)
    (hids : ∀ r ∈ (σ.repoHeap repo).adrs, 0 ≤ (σ.adrHeap r).id) :
    createNewAdrPost tmpl σ repo := by
  have hc : σ.addedRepositories.contains repo = true := by simpa using hmem
  unfold createNewAdrPost createNewAdr
  rw [if_pos hc]
  refine ⟨rfl, ?_, ?_, ?_, ?_, ?_, ?_, ?_⟩
  · simp [upd]
  · simp [upd]
  · intro h
    simp [upd, h]
  · intro h
    simp only [upd]
    refine ⟨((σ.repoHeap repo).adrs.map fun r => (σ.adrHeap r).id).foldl max (-1),
      ?_, fun j hj => mem_le_foldl_max _ _ j hj, by simp⟩
    rcases foldl_max_mem (-1) ((σ.repoHeap repo).adrs.map fun r => (σ.adrHeap r).id)
      with hm | hm
    · exfalso
      rcases List.exists_mem_of_ne_nil _ h with ⟨r, hr⟩
      have h0 : (0 : Int) ≤ (σ.adrHeap r).id := hids r hr
      have hle : (σ.adrHeap r).id ≤
          ((σ.repoHeap repo).adrs.map fun r => (σ.adrHeap r).id).foldl max (-1) :=
        mem_le_foldl_max _ _ _ (List.mem_map_of_mem _ hr)
      rw [hm] at hle
      omega
    · exact hm
  · simp [upd]
  · simp [upd]
  · simp [upd]

/-- Witness for C5 on the two-ADR repository: ids 0 and 1 exist, so the new
record gets reference 2 and id 2. -/
theorem c5_witness :
    0 ∈ exampleStoreB.addedRepositories ∧
    (∀ r ∈ (exampleStoreB.repoHeap 0).adrs, 0 ≤ (exampleStoreB.adrHeap r).id) ∧
    createNewAdrPost "boilerplate" exampleStoreB 0 :=
  ⟨by decide, by decide,
    c5_createNewAdr_success "boilerplate" exampleStoreB 0 (by decide) (by decide)⟩

/-- C6 as the code has it: on the failure path (repository not added by
reference) createNewAdr returns undefined and does perform the persistence
write; on the success path the persistence call is skipped, because the
return statement precedes it. -/
theorem c6_amended_createNewAdr_persistence (tmpl : String) (σ : StoreState) (repo : Nat) :
    (repo ∉ σ.addedRepositories →
      createNewAdr tmpl σ repo = (updateLocalStorageRepositories σ, none)) ∧
    (repo ∈ σ.addedRepositories →
      (createNewAdr tmpl σ repo).2 = some σ.nextAdr ∧
      (createNewAdr tmpl σ repo).1.storageRepos = σ.storageRepos) := by
  constructor <;> intro h
  · have hc : σ.addedRepositories.contains repo = false := by
      simpa using h
    unfold createNewAdr
    rw [hc]
    rfl
  · have hc : σ.addedRepositories.contains repo = true := by simpa using h
    unfold createNewAdr
    rw [if_pos hc]
    exact ⟨rfl, rfl⟩

/-- C6 is false on the code: at a concrete non-added repository reference
the failure path performs the persistence write (the claim says it is
skipped), filling the empty storage slot. -/
theorem c6_counterexample :
    7 ∉ exampleStoreB.addedRepositories ∧
    (createNewAdr "" exampleStoreB 7).2 = none ∧
    exampleStoreB.storageRepos = none ∧
    (createNewAdr "" exampleStoreB 7).1.storageRepos ≠ none := by
  refine ⟨by decide, rfl, rfl, by decide⟩

/-- Witness for the amended C6 at concrete inputs: reference 7 is not added
and the call persists; reference 0 is added and storage stays untouched. -/
theorem c6_witness :
    (7 ∉ exampleStoreB.addedRepositories ∧
      createNewAdr "" exampleStoreB 7 = (updateLocalStorageRepositories exampleStoreB, none)) ∧
    (0 ∈ exampleStoreB.addedRepositories ∧
      (createNewAdr "" exampleStoreB 0).1.storageRepos = exampleStoreB.storageRepos) :=
  ⟨⟨by decide, (c6_amended_createNewAdr_persistence "" exampleStoreB 7).1 (by decide)⟩,
    ⟨by decide, ((c6_amended_createNewAdr_persistence "" exampleStoreB 0).2 (by decide)).2⟩⟩

/-- C4: opening a valid ADR contained in an added repository and different
from the current one selects it, sets the current repository to a containing
repository with its activeBranch, and emits the open notification carrying
the ADR; an invalid or uncontained ADR leaves the state untouched and
nothing is thrown (openAdr is total). -/
theorem c4_openAdr_behavior (σ : StoreState) (a : Nat) :
    (isValidAdr (σ.adrHeap a) = true →
      (∃ ρ ∈ σ.addedRepositories, a ∈ (σ.repoHeap ρ).adrs) →
      some a ≠ σ.currentlyEditedAdr →
      (openAdr σ (some a)).currentlyEditedAdr = some a ∧
      (∃ ρ, ρ ∈ σ.addedRepositories ∧ a ∈ (σ.repoHeap ρ).adrs ∧
        (openAdr σ (some a)).currentRepository = some ρ ∧
        (openAdr σ (some a)).currentBranch = some (σ.repoHeap ρ).activeBranch) ∧
      (openAdr σ (some a)).events = σ.events ++ [StoreEvent.openAdrEvent a]) ∧
    ((isValidAdr (σ.adrHeap a) = false ∨
        ∀ ρ ∈ σ.addedRepositories, a ∉ (σ.repoHeap ρ).adrs) →
      openAdr σ (some a) = σ) := by
  constructor
  · intro hv hcont hne
    have hsome : (σ.addedRepositories.find?
        (fun ρ0 => (σ.repoHeap ρ0).adrs.contains a)).isSome := by
      rw [List.find?_isSome]
      obtain ⟨ρ, hρ, hmem⟩ := hcont
      exact ⟨ρ, hρ, by simpa using hmem⟩
    obtain ⟨ρf, hf⟩ := Option.isSome_iff_exists.mp hsome
    have hρf : ρf ∈ σ.addedRepositories := List.mem_of_find?_eq_some hf
    have hmemf : a ∈ (σ.repoHeap ρf).adrs := by
      have := List.find?_some hf
      simpa using this
    have hopen : openAdr σ (some a) =
        { σ with
          currentRepository := some ρf
          currentBranch := some (σ.repoHeap ρf).activeBranch
          currentlyEditedAdr := some a
          events := σ.events ++ [StoreEvent.openAdrEvent a] } := by
      have hf' : σ.addedRepositories.find?
          (fun ρ => decide (a ∈ (σ.repoHeap ρ).adrs)) = some ρf := by
        simpa using hf
      simp [openAdr, hf', hv, hne]
    rw [hopen]
    exact ⟨rfl, ⟨ρf, hρf, hmemf, rfl, rfl⟩, rfl⟩
  · intro h
    rcases openAdr_cases σ (some a) with heq | ⟨r, ρ, hr, hf, hv, heq⟩
    · exact heq
    · exfalso
      obtain rfl : a = r := by injection hr
      rcases h with h | h
      · rw [hv] at h; cases h
      · have hρ : ρ ∈ σ.addedRepositories := List.mem_of_find?_eq_some hf
        have hmem : a ∈ (σ.repoHeap ρ).adrs := by
          have := List.find?_some hf
          simpa using this
        exact h ρ hρ hmem

/-- Witness for C4 on the two-ADR store: opening valid contained ADR 0
selects it, and opening ADR 5 (contained in no added repository) is a
no-op. -/
theorem c4_witness :
    (isValidAdr (exampleStoreB.adrHeap 0) = true ∧
      (0 ∈ exampleStoreB.addedRepositories ∧ 0 ∈ (exampleStoreB.repoHeap 0).adrs) ∧
      (openAdr exampleStoreB (some 0)).currentlyEditedAdr = some 0 ∧
      (openAdr exampleStoreB (some 0)).events = [StoreEvent.openAdrEvent 0]) ∧
    ((∀ ρ ∈ exampleStoreB.addedRepositories, 5 ∉ (exampleStoreB.repoHeap ρ).adrs) ∧
      openAdr exampleStoreB (some 5) = exampleStoreB) := by
  have h := c4_openAdr_behavior exampleStoreB 0
  have h1 := h.1 (by decide) ⟨0, by decide, by decide⟩ (by decide)
  have h2 := (c4_openAdr_behavior exampleStoreB 5).2 (Or.inr (by decide))
  exact ⟨⟨by decide, ⟨by decide, by decide⟩, h1.1, by simpa [exampleStoreB, exampleStore] using h1.2.2⟩,
    ⟨by decide, h2⟩⟩

/-- The fullNames of the incoming repositories that collide with an already
added fullName, in incoming order: the names addRepositories joins into its
thrown message. -/
def collidingNames (σ : StoreState) (repoList : List Nat) : List String :=
  (repoList.filter fun ρ =>
    (σ.addedRepositories.map fun ρ0 => (σ.repoHeap ρ0).fullName).contains
      (σ.repoHeap ρ).fullName).map fun ρ => (σ.repoHeap ρ).fullName

/-- C2: a name collision makes addRepositories throw the batch error whose
message joins exactly the colliding fullNames, leaving the whole state
unchanged; without collision it returns normally and appends the whole
batch.  The characterization clause states that collidingNames holds
precisely the incoming fullNames already present. -/
theorem c2_addRepositories_atomic (σ : StoreState) (repoList : List Nat) :
    (∀ n, n ∈ collidingNames σ repoList ↔
      ∃ ρ ∈ repoList, (σ.repoHeap ρ).fullName = n ∧
        ∃ ρ0 ∈ σ.addedRepositories, (σ.repoHeap ρ0).fullName = n) ∧
    ((∃ ρ ∈ repoList, ∃ ρ0 ∈ σ.addedRepositories,
        (σ.repoHeap ρ).fullName = (σ.repoHeap ρ0).fullName) →
      addRepositories σ repoList =
        (σ, some ("I won't add an already added repository to the store! " ++
          String.intercalate ", " (collidingNames σ repoList)))) ∧
    ((∀ ρ ∈ repoList, ∀ ρ0 ∈ σ.addedRepositories,
        (σ.repoHeap ρ).fullName ≠ (σ.repoHeap ρ0).fullName) →
      (addRepositories σ repoList).2 = none ∧
      (addRepositories σ repoList).1.addedRepositories =
        σ.addedRepositories ++ repoList) := by
  refine ⟨?_, ?_, ?_⟩
  · intro n
    unfold collidingNames
    simp only [List.mem_map, List.mem_filter, List.contains_iff_exists_mem_beq]
    constructor
    · rintro ⟨ρ, ⟨hρ, hex⟩, rfl⟩
      simp only [List.mem_map, beq_iff_eq] at hex
      obtain ⟨n0, ⟨ρ0, hρ0, rfl⟩, hn0⟩ := hex
      exact ⟨ρ, hρ, rfl, ρ0, hρ0, hn0.symm⟩
    · rintro ⟨ρ, hρ, rfl, ρ0, hρ0, hn⟩
      refine ⟨ρ, ⟨hρ, ?_⟩, rfl⟩
      simp only [List.mem_map, beq_iff_eq]
      exact ⟨(σ.repoHeap ρ0).fullName, ⟨ρ0, hρ0, rfl⟩, hn.symm⟩
  · intro hcol
    obtain ⟨ρ, hρ, ρ0, hρ0, hn⟩ := hcol
    have hfilter : ρ ∈ repoList.filter fun ρ =>
        (σ.addedRepositories.map fun ρ0 => (σ.repoHeap ρ0).fullName).contains
          (σ.repoHeap ρ).fullName := by
      rw [List.mem_filter]
      refine ⟨hρ, ?_⟩
      rw [List.contains_iff_exists_mem_beq]
      exact ⟨(σ.repoHeap ρ0).fullName, List.mem_map_of_mem _ hρ0, by simpa using hn⟩
    have hlen : 0 < (repoList.filter fun ρ =>
        (σ.addedRepositories.map fun ρ0 => (σ.repoHeap ρ0).fullName).contains
          (σ.repoHeap ρ).fullName).length :=
      List.length_pos.mpr (List.ne_nil_of_mem hfilter)
    unfold addRepositories collidingNames
    rw [if_pos hlen]
  · intro hno
    have hfilter : (repoList.filter fun ρ =>
        (σ.addedRepositories.map fun ρ0 => (σ.repoHeap ρ0).fullName).contains
          (σ.repoHeap ρ).fullName) = [] := by
      rw [List.filter_eq_nil]
      intro ρ hρ
      rw [Bool.not_eq_true]
      rw [← Bool.not_eq_true, List.contains_iff_exists_mem_beq]
      rintro ⟨n0, hn0, hbeq⟩
      simp only [List.mem_map] at hn0
      obtain ⟨ρ0, hρ0, rfl⟩ := hn0
      exact hno ρ hρ ρ0 hρ0 (by simpa using hbeq)
    simp only [addRepositories, hfilter]
    refine ⟨by simp, ?_⟩
    simp only [List.length_nil, gt_iff_lt, lt_self_iff_false, if_false]
    rw [(assertSomeAdrIsOpened_frame _).2.2.2.2.1]
    rfl

/-- A store like exampleStoreB whose other repository objects carry a
different fullName, so adding reference 1 does not collide. -/
def exampleStoreC : StoreState :=
  { exampleStoreB with
    repoHeap := fun ρ =>
      if ρ = 0 then
        { repoDefault with fullName := "org/repo", activeBranch := "main", adrs := [0, 1] }
      else
        { repoDefault with fullName := "org/other", activeBranch := "dev", adrs := [] }
    nextRepo := 2 }

/-- Witness for C2: on exampleStoreB every object has the added fullName, so
adding reference 1 throws and changes nothing; on exampleStoreC reference 1
has a fresh fullName and the batch is appended. -/
theorem c2_witness :
    ((∃ ρ ∈ [1], ∃ ρ0 ∈ exampleStoreB.addedRepositories,
        (exampleStoreB.repoHeap ρ).fullName = (exampleStoreB.repoHeap ρ0).fullName) ∧
      addRepositories exampleStoreB [1] =
        (exampleStoreB, some ("I won't add an already added repository to the store! " ++
          String.intercalate ", " (collidingNames exampleStoreB [1])))) ∧
    ((∀ ρ ∈ [1], ∀ ρ0 ∈ exampleStoreC.addedRepositories,
        (exampleStoreC.repoHeap ρ).fullName ≠ (exampleStoreC.repoHeap ρ0).fullName) ∧
      (addRepositories exampleStoreC [1]).2 = none ∧
      (addRepositories exampleStoreC [1]).1.addedRepositories =
        exampleStoreC.addedRepositories ++ [1]) :=
  ⟨⟨by decide, (c2_addRepositories_atomic exampleStoreB [1]).2.1 (by decide)⟩,
    ⟨by decide, (c2_addRepositories_atomic exampleStoreC [1]).2.2 (by decide)⟩⟩

/-- allocAdr bumps the ADR counter, writes only the fresh cell, and leaves
every other field of the state alone. -/
theorem allocAdr_spec (σ : StoreState) (j : AdrJson) :
    (allocAdr σ j).1.nextAdr = σ.nextAdr + 1 ∧
    (∀ r, r < σ.nextAdr → (allocAdr σ j).1.adrHeap r = σ.adrHeap r) ∧
    (allocAdr σ j).1.repoHeap = σ.repoHeap ∧
    (allocAdr σ j).1.nextRepo = σ.nextRepo ∧
    (allocAdr σ j).1.addedRepositories = σ.addedRepositories ∧
    (allocAdr σ j).1.currentRepository = σ.currentRepository ∧
    (allocAdr σ j).1.currentBranch = σ.currentBranch ∧
    (allocAdr σ j).1.currentlyEditedAdr = σ.currentlyEditedAdr ∧
    (allocAdr σ j).1.mode = σ.mode ∧
    (allocAdr σ j).1.storageRepos = σ.storageRepos ∧
    (allocAdr σ j).1.storageMode = σ.storageMode ∧
    (allocAdr σ j).1.events = σ.events := by
  refine ⟨rfl, ?_, rfl, rfl, rfl, rfl, rfl, rfl, rfl, rfl, rfl, rfl⟩
  intro r hr
  show upd σ.adrHeap σ.nextAdr _ r = σ.adrHeap r
  unfold upd
  rw [if_neg (by omega)]

/-- allocAdrs only advances the ADR counter and writes fresh ADR cells. -/
theorem allocAdrs_spec (js : List AdrJson) : ∀ σ : StoreState,
    σ.nextAdr ≤ (allocAdrs σ js).1.nextAdr ∧
    (∀ r, r < σ.nextAdr → (allocAdrs σ js).1.adrHeap r = σ.adrHeap r) ∧
    (allocAdrs σ js).1.repoHeap = σ.repoHeap ∧
    (allocAdrs σ js).1.nextRepo = σ.nextRepo ∧
    (allocAdrs σ js).1.addedRepositories = σ.addedRepositories ∧
    (allocAdrs σ js).1.currentRepository = σ.currentRepository ∧
    (allocAdrs σ js).1.currentBranch = σ.currentBranch ∧
    (allocAdrs σ js).1.currentlyEditedAdr = σ.currentlyEditedAdr ∧
    (allocAdrs σ js).1.mode = σ.mode ∧
    (allocAdrs σ js).1.storageRepos = σ.storageRepos ∧
    (allocAdrs σ js).1.storageMode = σ.storageMode ∧
    (allocAdrs σ js).1.events = σ.events := by
  induction js with
  | nil =>
    intro σ
    exact ⟨le_refl _, fun r _ => rfl, rfl, rfl, rfl, rfl, rfl, rfl, rfl, rfl, rfl, rfl⟩
  | cons j js ih =>
    intro σ
    have h1 := allocAdr_spec σ j
    have h2 := ih (allocAdr σ j).1
    simp only [allocAdrs]
    refine ⟨?_, ?_, h2.2.2.1.trans h1.2.2.1, (h2.2.2.2.1).trans h1.2.2.2.1,
      (h2.2.2.2.2.1).trans h1.2.2.2.2.1, (h2.2.2.2.2.2.1).trans h1.2.2.2.2.2.1,
      (h2.2.2.2.2.2.2.1).trans h1.2.2.2.2.2.2.1,
      (h2.2.2.2.2.2.2.2.1).trans h1.2.2.2.2.2.2.2.1,
      (h2.2.2.2.2.2.2.2.2.1).trans h1.2.2.2.2.2.2.2.2.1,
      (h2.2.2.2.2.2.2.2.2.2.1).trans h1.2.2.2.2.2.2.2.2.2.1,
      (h2.2.2.2.2.2.2.2.2.2.2.1).trans h1.2.2.2.2.2.2.2.2.2.2.1,
      (h2.2.2.2.2.2.2.2.2.2.2.2).trans h1.2.2.2.2.2.2.2.2.2.2.2⟩
    · calc σ.nextAdr ≤ σ.nextAdr + 1 := Nat.le_succ _
        _ = (allocAdr σ j).1.nextAdr := h1.1.symm
        _ ≤ (allocAdrs (allocAdr σ j).1 js).1.nextAdr := h2.1
    · intro r hr
      have hr1 : r < (allocAdr σ j).1.nextAdr := by
        rw [h1.1]; omega
      rw [h2.2.1 r hr1, h1.2.1 r hr]

/-- allocOptAdrs only advances the ADR counter and writes fresh ADR cells. -/
theorem allocOptAdrs_spec (js : Option (List AdrJson)) (σ : StoreState) :
    σ.nextAdr ≤ (allocOptAdrs σ js).1.nextAdr ∧
    (∀ r, r < σ.nextAdr → (allocOptAdrs σ js).1.adrHeap r = σ.adrHeap r) ∧
    (allocOptAdrs σ js).1.repoHeap = σ.repoHeap ∧
    (allocOptAdrs σ js).1.nextRepo = σ.nextRepo ∧
    (allocOptAdrs σ js).1.addedRepositories = σ.addedRepositories ∧
    (allocOptAdrs σ js).1.currentRepository = σ.currentRepository ∧
    (allocOptAdrs σ js).1.currentBranch = σ.currentBranch ∧
    (allocOptAdrs σ js).1.currentlyEditedAdr = σ.currentlyEditedAdr ∧
    (allocOptAdrs σ js).1.mode = σ.mode ∧
    (allocOptAdrs σ js).1.storageRepos = σ.storageRepos ∧
    (allocOptAdrs σ js).1.storageMode = σ.storageMode ∧
    (allocOptAdrs σ js).1.events = σ.events := by
  cases js with
  | none =>
    exact ⟨le_refl _, fun r _ => rfl, rfl, rfl, rfl, rfl, rfl, rfl, rfl, rfl, rfl, rfl⟩
  | some l => exact allocAdrs_spec l σ

/-- allocRepo returns the fresh repository reference, marks it as not an
instance of the Repository class, and leaves older cells and the store
fields alone. -/
theorem allocRepo_spec (σ : StoreState) (j : RepoJson) :
    (allocRepo σ j).2 = σ.nextRepo ∧
    (allocRepo σ j).1.nextRepo = σ.nextRepo + 1 ∧
    σ.nextAdr ≤ (allocRepo σ j).1.nextAdr ∧
    (∀ r, r < σ.nextAdr → (allocRepo σ j).1.adrHeap r = σ.adrHeap r) ∧
    ((allocRepo σ j).1.repoHeap σ.nextRepo).isInstance = false ∧
    (∀ ρ, ρ ≠ σ.nextRepo → (allocRepo σ j).1.repoHeap ρ = σ.repoHeap ρ) ∧
    (allocRepo σ j).1.addedRepositories = σ.addedRepositories ∧
    (allocRepo σ j).1.currentRepository = σ.currentRepository ∧
    (allocRepo σ j).1.currentBranch = σ.currentBranch ∧
    (allocRepo σ j).1.currentlyEditedAdr = σ.currentlyEditedAdr ∧
    (allocRepo σ j).1.mode = σ.mode ∧
    (allocRepo σ j).1.storageRepos = σ.storageRepos ∧
    (allocRepo σ j).1.storageMode = σ.storageMode ∧
    (allocRepo σ j).1.events = σ.events := by
  have h1 := allocAdrs_spec j.adrs σ
  have h2 := allocOptAdrs_spec j.addedAdrs (allocAdrs σ j.adrs).1
  have h3 := allocOptAdrs_spec j.deletedAdrs (allocOptAdrs (allocAdrs σ j.adrs).1 j.addedAdrs).1
  have hrepo3 : (allocOptAdrs (allocOptAdrs (allocAdrs σ j.adrs).1 j.addedAdrs).1
      j.deletedAdrs).1.nextRepo = σ.nextRepo :=
    (h3.2.2.2.1).trans ((h2.2.2.2.1).trans h1.2.2.2.1)
  simp only [allocRepo]
  rw [hrepo3]
  refine ⟨rfl, rfl, ?_, ?_, ?_, ?_, ?_, ?_, ?_, ?_, ?_, ?_, ?_, ?_⟩
  · calc σ.nextAdr ≤ (allocAdrs σ j.adrs).1.nextAdr := h1.1
      _ ≤ (allocOptAdrs (allocAdrs σ j.adrs).1 j.addedAdrs).1.nextAdr := h2.1
      _ ≤ _ := h3.1
  · intro r hr
    have hr1 : r < (allocAdrs σ j.adrs).1.nextAdr := lt_of_lt_of_le hr h1.1
    have hr2 : r < (allocOptAdrs (allocAdrs σ j.adrs).1 j.addedAdrs).1.nextAdr :=
      lt_of_lt_of_le hr1 h2.1
    rw [h3.2.1 r hr2, h2.2.1 r hr1, h1.2.1 r hr]
  · simp [upd]
  · intro ρ hρ
    simp only [upd, if_neg hρ]
    rw [h3.2.2.1, h2.2.2.1, h1.2.2.1]
  · exact (h3.2.2.2.2.1).trans ((h2.2.2.2.2.1).trans h1.2.2.2.2.1)
  · exact (h3.2.2.2.2.2.1).trans ((h2.2.2.2.2.2.1).trans h1.2.2.2.2.2.1)
  · exact (h3.2.2.2.2.2.2.1).trans ((h2.2.2.2.2.2.2.1).trans h1.2.2.2.2.2.2.1)
  · exact (h3.2.2.2.2.2.2.2.1).trans ((h2.2.2.2.2.2.2.2.1).trans h1.2.2.2.2.2.2.2.1)
  · exact (h3.2.2.2.2.2.2.2.2.1).trans ((h2.2.2.2.2.2.2.2.2.1).trans h1.2.2.2.2.2.2.2.2.1)
  · exact (h3.2.2.2.2.2.2.2.2.2.1).trans
      ((h2.2.2.2.2.2.2.2.2.2.1).trans h1.2.2.2.2.2.2.2.2.2.1)
  · exact (h3.2.2.2.2.2.2.2.2.2.2.1).trans
      ((h2.2.2.2.2.2.2.2.2.2.2.1).trans h1.2.2.2.2.2.2.2.2.2.2.1)
  · exact (h3.2.2.2.2.2.2.2.2.2.2.2).trans
      ((h2.2.2.2.2.2.2.2.2.2.2.2).trans h1.2.2.2.2.2.2.2.2.2.2.2)

/-- allocRepos (the JSON.parse of the whole stored list): one fresh
repository object per serialized entry, each a plain object (not a class
instance); counters only grow, older heap cells and all store fields are
untouched. -/
theorem allocRepos_spec (data : List RepoJson) : ∀ σ : StoreState,
    (allocRepos σ data).2.length = data.length ∧
    σ.nextRepo ≤ (allocRepos σ data).1.nextRepo ∧
    σ.nextAdr ≤ (allocRepos σ data).1.nextAdr ∧
    (∀ ρ, ρ < σ.nextRepo → (allocRepos σ data).1.repoHeap ρ = σ.repoHeap ρ) ∧
    (∀ r, r < σ.nextAdr → (allocRepos σ data).1.adrHeap r = σ.adrHeap r) ∧
    (∀ ρ ∈ (allocRepos σ data).2, ((allocRepos σ data).1.repoHeap ρ).isInstance = false) ∧
    (allocRepos σ data).1.addedRepositories = σ.addedRepositories ∧
    (allocRepos σ data).1.currentRepository = σ.currentRepository ∧
    (allocRepos σ data).1.currentBranch = σ.currentBranch ∧
    (allocRepos σ data).1.currentlyEditedAdr = σ.currentlyEditedAdr ∧
    (allocRepos σ data).1.mode = σ.mode ∧
    (allocRepos σ data).1.storageRepos = σ.storageRepos ∧
    (allocRepos σ data).1.storageMode = σ.storageMode ∧
    (allocRepos σ data).1.events = σ.events := by
  induction data with
  | nil =>
    intro σ
    exact ⟨rfl, le_refl _, le_refl _, fun ρ _ => rfl, fun r _ => rfl, by simp [allocRepos],
      rfl, rfl, rfl, rfl, rfl, rfl, rfl, rfl⟩
  | cons j js ih =>
    intro σ
    have h1 := allocRepo_spec σ j
    have h2 := ih (allocRepo σ j).1
    simp only [allocRepos]
    have hnext1 : (allocRepo σ j).1.nextRepo = σ.nextRepo + 1 := h1.2.1
    refine ⟨?_, ?_, ?_, ?_, ?_, ?_,
      h2.2.2.2.2.2.2.1.trans h1.2.2.2.2.2.2.1,
      h2.2.2.2.2.2.2.2.1.trans h1.2.2.2.2.2.2.2.1,
      h2.2.2.2.2.2.2.2.2.1.trans h1.2.2.2.2.2.2.2.2.1,
      h2.2.2.2.2.2.2.2.2.2.1.trans h1.2.2.2.2.2.2.2.2.2.1,
      h2.2.2.2.2.2.2.2.2.2.2.1.trans h1.2.2.2.2.2.2.2.2.2.2.1,
      h2.2.2.2.2.2.2.2.2.2.2.2.1.trans h1.2.2.2.2.2.2.2.2.2.2.2.1,
      h2.2.2.2.2.2.2.2.2.2.2.2.2.1.trans h1.2.2.2.2.2.2.2.2.2.2.2.2.1,
      h2.2.2.2.2.2.2.2.2.2.2.2.2.2.trans h1.2.2.2.2.2.2.2.2.2.2.2.2.2⟩
    · simp [h2.1]
    · have := h2.2.1
      omega
    · have ha1 := h1.2.2.1
      have ha2 := h2.2.2.1
      omega
    · intro ρ hρ
      have hρ1 : ρ < (allocRepo σ j).1.nextRepo := by omega
      rw [h2.2.2.2.1 ρ hρ1, h1.2.2.2.2.2.1 ρ (by omega)]
    · intro r hr
      have hr1 : r < (allocRepo σ j).1.nextAdr := lt_of_lt_of_le hr h1.2.2.1
      rw [h2.2.2.2.2.1 r hr1, h1.2.2.2.1 r hr]
    · intro ρ hρ
      rcases List.mem_cons.mp hρ with hρ0 | hρrest
      · have hlt : (allocRepo σ j).2 < (allocRepo σ j).1.nextRepo := by
          rw [h1.1, hnext1]; omega
        rw [hρ0, h2.2.2.2.1 _ hlt, h1.1]
        exact h1.2.2.2.2.1
      · exact h2.2.2.2.2.2.1 ρ hρrest

/-- A parsed repository list that passes isValidRepoList is empty: every
parsed object fails the instance-of-Repository check. -/
theorem valid_parsed_nil (σ1 : StoreState) (refs : List Nat)
    (hinst : ∀ ρ ∈ refs, (σ1.repoHeap ρ).isInstance = false)
    (hval : isValidRepoList σ1 refs = true) : refs = [] := by
  cases refs with
  | nil => rfl
  | cons ρ rest =>
    exfalso
    have h := (List.all_eq_true.mp hval) ρ (List.mem_cons_self ρ rest)
    have hfalse := hinst ρ (List.mem_cons_self ρ rest)
    rw [Bool.and_eq_true] at h
    rw [hfalse] at h
    cases h.1

/-- The JSON image the store writes to the repositories slot. -/
def serializeRepos (σ : StoreState) : List RepoJson :=
  σ.addedRepositories.map (stringifyRepo σ)

/-- A store as freshly constructed on page load (the initial Vue data
fields), with the given contents of the two local-storage slots. -/
def freshStoreWith (sr : Option (List RepoJson)) (sm : Option String) : StoreState :=
  { adrHeap := fun _ => adrDefault, nextAdr := 0
    repoHeap := fun _ => repoDefault, nextRepo := 0
    addedRepositories := [], currentRepository := none, currentBranch := none
    currentlyEditedAdr := none, mode := "basic", activeBranch := none
    storageRepos := sr, storageMode := sm, events := [] }

/-- The observable content of one ADR: originalMd, editedMd, path and id. -/
def adrSummary (σ : StoreState) (r : Nat) :
    Option (Option String) × Option String × Option String × Int :=
  ((σ.adrHeap r).originalMd, (σ.adrHeap r).editedMd, (σ.adrHeap r).path, (σ.adrHeap r).id)

/-- The observable content of the store: for each added repository its
fullName and the content of its ADRs, in order. -/
def storeSummary (σ : StoreState) : List (String × List (Option (Option String) ×
    Option String × Option String × Int)) :=
  σ.addedRepositories.map fun ρ =>
    ((σ.repoHeap ρ).fullName, (σ.repoHeap ρ).adrs.map (adrSummary σ))

/-- Whether the data written by serializing the store passes the
isValidRepoList validation that reload performs after parsing it. -/
def roundTripValid (σ : StoreState) : Bool :=
  isValidRepoList
    (allocRepos (freshStoreWith (some (serializeRepos σ)) (some σ.mode)) (serializeRepos σ)).1
    (allocRepos (freshStoreWith (some (serializeRepos σ)) (some σ.mode)) (serializeRepos σ)).2

/-- The result of reload on a fresh store whose storage slots hold the
serialized repositories and mode of σ. -/
def roundTripResult (σ : StoreState) : StoreState × Option String :=
  reload (freshStoreWith (some (serializeRepos σ)) (some σ.mode))

/-- When the stored repository data fails validation after parsing, reload
keeps the parsed-but-discarded heap, leaves the repository list as it was,
and only restores the mode. -/
theorem reload_invalid (σ : StoreState) (data : List RepoJson)
    (hsr : σ.storageRepos = some data)
    (hv : isValidRepoList (allocRepos σ data).1 (allocRepos σ data).2 = false) :
    reload σ = ({ (allocRepos σ data).1 with
      mode := jsOrBasic (allocRepos σ data).1.storageMode }, none) := by
  simp only [reload, hsr]
  rw [hv]
  simp

/-- C7: serializing addedRepositories and the mode through the bridge and
reloading a fresh store reproduces an equivalent state (same fullNames, same
per-ADR originalMd, editedMd, path and id, same mode) whenever the stored
repository data passes the isValidRepoList validation; when validation
fails the stored list is discarded and the fresh store keeps an empty
repository list (the mode is still restored).  The mode must be nonempty
because the empty string is falsy and falls back to basic. -/
theorem c7_persistence_round_trip (σ : StoreState) (hmode : σ.mode ≠ "") :
    (roundTripValid σ = true →
      (roundTripResult σ).2 = none ∧
      storeSummary (roundTripResult σ).1 = storeSummary σ ∧
      (roundTripResult σ).1.mode = σ.mode) ∧
    (roundTripValid σ = false →
      (roundTripResult σ).1.addedRepositories = [] ∧
      (roundTripResult σ).1.mode = σ.mode ∧
      (roundTripResult σ).2 = none) := by
  constructor
  · intro hv
    unfold roundTripValid at hv
    have hspec := allocRepos_spec (serializeRepos σ)
      (freshStoreWith (some (serializeRepos σ)) (some σ.mode))
    have hrefs := valid_parsed_nil _ _ hspec.2.2.2.2.2.1 hv
    have hlen := hspec.1
    rw [hrefs] at hlen
    have hdata : serializeRepos σ = [] :=
      List.eq_nil_of_length_eq_zero hlen.symm
    have hadded : σ.addedRepositories = [] := by
      simpa [serializeRepos] using hdata
    unfold roundTripResult
    rw [hdata]
    refine ⟨?_, ?_, ?_⟩ <;>
      simp [reload, freshStoreWith, allocRepos, isValidRepoList, addRepositories,
        updateLocalStorageRepositories, assertSomeAdrIsOpened, adrIsOpenedOk,
        openAnyAdr, jsOrBasic, hmode, storeSummary, hadded]
  · intro hv
    unfold roundTripValid at hv
    have hspec := allocRepos_spec (serializeRepos σ)
      (freshStoreWith (some (serializeRepos σ)) (some σ.mode))
    have hadded := hspec.2.2.2.2.2.2.1
    have hsm := hspec.2.2.2.2.2.2.2.2.2.2.2.2.1
    unfold roundTripResult
    rw [reload_invalid _ _ rfl hv]
    refine ⟨?_, ?_, rfl⟩
    · simpa [freshStoreWith] using hadded
    · show jsOrBasic (allocRepos (freshStoreWith (some (serializeRepos σ)) (some σ.mode))
        (serializeRepos σ)).1.storageMode = σ.mode
      rw [hsm]
      simp [jsOrBasic, freshStoreWith, hmode]

/-- Witness for C7: the empty store round-trips (its serialized list passes
validation), while the one-repository store serializes to data that fails
validation, so its reload starts with an empty repository list. -/
theorem c7_witness :
    (exampleStore.mode ≠ "" ∧ roundTripValid exampleStore = true ∧
      storeSummary (roundTripResult exampleStore).1 = storeSummary exampleStore ∧
      (roundTripResult exampleStore).1.mode = exampleStore.mode) ∧
    (exampleStoreB.mode ≠ "" ∧ roundTripValid exampleStoreB = false ∧
      (roundTripResult exampleStoreB).1.addedRepositories = []) := by
  refine ⟨⟨by decide, by decide, ?_, ?_⟩, ⟨by decide, by decide, ?_⟩⟩
  · exact ((c7_persistence_round_trip exampleStore (by decide)).1 (by decide)).2.1
  · exact ((c7_persistence_round_trip exampleStore (by decide)).1 (by decide)).2.2
  · exact ((c7_persistence_round_trip exampleStoreB (by decide)).2 (by decide)).1

/-- The headD of a nonempty list is a member. -/
theorem headD_mem (l : List α) (d : α) (h : l ≠ []) : l.headD d ∈ l := by
  cases l with
  | nil => exact absurd rfl h
  | cons x xs => exact List.mem_cons_self x xs

/-- If the first repository with a nonempty adrs list is ρ1 and h lies in
its adrs, then the membership search openAdr performs also stops at ρ1: the
repositories before it have empty adrs lists and cannot contain h. -/
theorem find?_contains_of_first_nonempty (R : Nat → RepoData) (h : Nat) :
    ∀ (l : List Nat) (ρ1 : Nat),
      l.find? (fun ρ => !(R ρ).adrs.isEmpty) = some ρ1 →
      h ∈ (R ρ1).adrs →
      l.find? (fun ρ => (R ρ).adrs.contains h) = some ρ1 := by
  intro l
  induction l with
  | nil => intro ρ1 hfind; cases hfind
  | cons x xs ih =>
    intro ρ1 hfind hmem
    by_cases hx : (R x).adrs.isEmpty = true
    · have hfx : (!(R x).adrs.isEmpty) = false := by rw [hx]; rfl
      rw [List.find?_cons_of_neg _ (by simp [hfx])] at hfind
      have hx' : (R x).adrs = [] := List.isEmpty_iff.mp hx
      rw [List.find?_cons_of_neg _ (by simp [hx'])]
      exact ih ρ1 hfind hmem
    · rw [List.find?_cons_of_pos _ (by simp [hx])] at hfind
      obtain rfl : x = ρ1 := by injection hfind
      rw [List.find?_cons_of_pos _ (by simpa using hmem)]

/-- After removing the repositories with the target fullName, the repair
check fails for the previously current ADR: no surviving repository
contains it.  (Needs the ownership part of well-formedness.) -/
theorem removeRepository_repair_triggers (σ : StoreState) (r ρ0 : Nat)
    (hwf : WellFormedStore σ) (hcur : σ.currentlyEditedAdr = some r)
    (hρ0mem : ρ0 ∈ σ.addedRepositories) (hρ0adrs : r ∈ (σ.repoHeap ρ0).adrs) :
    adrIsOpenedOk { σ with addedRepositories := σ.addedRepositories.filter fun ρ =>
      (σ.repoHeap ρ).fullName != (σ.repoHeap ρ0).fullName } = false := by
  have hany : (σ.addedRepositories.filter fun ρ =>
      (σ.repoHeap ρ).fullName != (σ.repoHeap ρ0).fullName).any
        (fun ρ => (σ.repoHeap ρ).adrs.contains r) = false := by
    rw [Bool.eq_false_iff]
    intro hany
    rw [List.any_eq_true] at hany
    obtain ⟨ρ, hρ, hc⟩ := hany
    obtain ⟨hρmem, hρpred⟩ := List.mem_filter.mp hρ
    have hne : ρ0 ≠ ρ := by
      intro he
      rw [← he] at hρpred
      simp at hρpred
    have hnot : r ∉ (σ.repoHeap ρ).adrs := hwf.2.2 ρ0 hρ0mem ρ hρmem hne r hρ0adrs
    exact hnot (by simpa using hc)
  simp only [adrIsOpenedOk, hcur]
  rw [hany, Bool.and_false]

/-- openAnyAdr does nothing when no added repository has an ADR. -/
theorem openAnyAdr_none (τ : StoreState)
    (hfind : τ.addedRepositories.find? (fun ρ => !(τ.repoHeap ρ).adrs.isEmpty) = none) :
    openAnyAdr τ = τ := by
  unfold openAnyAdr
  simp only [hfind]

/-- openAnyAdr does nothing when the first ADR of the first repository with
a nonempty adrs list fails the validity check: openAdr rejects it. -/
theorem openAnyAdr_invalid_head (τ : StoreState) (ρ1 : Nat)
    (hfind : τ.addedRepositories.find? (fun ρ => !(τ.repoHeap ρ).adrs.isEmpty) = some ρ1)
    (hv : isValidAdr (τ.adrHeap (((τ.repoHeap ρ1).adrs).headD 0)) = false) :
    openAnyAdr τ = τ := by
  unfold openAnyAdr
  simp only [hfind]
  rcases openAdr_cases τ (some (((τ.repoHeap ρ1).adrs).headD 0)) with
    he | ⟨r', ρ', hr', _, hv', _⟩
  · exact he
  · exfalso
    obtain rfl : ((τ.repoHeap ρ1).adrs).headD 0 = r' := by injection hr'
    rw [hv] at hv'
    exact Bool.noConfusion hv'

/-- With nothing selected, openAnyAdr selects the first ADR of the first
repository with a nonempty adrs list when that ADR is valid. -/
theorem openAnyAdr_valid_head (τ : StoreState) (ρ1 : Nat)
    (hcurnone : τ.currentlyEditedAdr = none)
    (hfind : τ.addedRepositories.find? (fun ρ => !(τ.repoHeap ρ).adrs.isEmpty) = some ρ1)
    (hv : isValidAdr (τ.adrHeap (((τ.repoHeap ρ1).adrs).headD 0)) = true) :
    (openAnyAdr τ).currentlyEditedAdr = some (((τ.repoHeap ρ1).adrs).headD 0) ∧
    (openAnyAdr τ).currentRepository = some ρ1 ∧
    (openAnyAdr τ).currentBranch = some (τ.repoHeap ρ1).activeBranch := by
  have hne : (τ.repoHeap ρ1).adrs ≠ [] := by
    have h := List.find?_some hfind
    simp only [Bool.not_eq_true'] at h
    intro hnil
    rw [List.isEmpty_iff.mpr hnil] at h
    exact Bool.noConfusion h
  have hmem : ((τ.repoHeap ρ1).adrs).headD 0 ∈ (τ.repoHeap ρ1).adrs :=
    headD_mem _ _ hne
  have hfind2 := find?_contains_of_first_nonempty τ.repoHeap
    (((τ.repoHeap ρ1).adrs).headD 0) τ.addedRepositories ρ1 hfind hmem
  have hfind2' : τ.addedRepositories.find?
      (fun ρ => decide ((((τ.repoHeap ρ1).adrs).headD 0) ∈ (τ.repoHeap ρ).adrs)) = some ρ1 := by
    simpa using hfind2
  have hv' : isValidAdr (τ.adrHeap (((τ.repoHeap ρ1).adrs).head?.getD 0)) = true := by
    simpa using hv
  have hfind3 : τ.addedRepositories.find?
      (fun ρ => decide ((((τ.repoHeap ρ1).adrs).head?.getD 0) ∈ (τ.repoHeap ρ).adrs)) =
      some ρ1 := by
    simpa using hfind2'
  have hne3 : ¬(some (((τ.repoHeap ρ1).adrs).head?.getD 0) = τ.currentlyEditedAdr) := by
    rw [hcurnone]
    simp
  unfold openAnyAdr
  simp only [hfind]
  simp [openAdr, hne3, hfind3, hv']

/-- C3 as the code has it: after removeRepository(r) while r held the
current ADR, either the first ADR of the first surviving repository with a
nonempty adrs list becomes current (when it is valid) with the selection
fields set from that repository, or all three selection fields are cleared —
which happens both when no surviving repository has an ADR and when the
first such repository's first ADR is invalid. -/
theorem c3_amended_removeRepository (σ : StoreState) (r ρ0 : Nat)
    (hwf : WellFormedStore σ) (hinv : SelectionInvariant σ)
    (hcur : σ.currentlyEditedAdr = some r)
    (hrepo : σ.currentRepository = some ρ0) :
    ((σ.addedRepositories.filter fun ρ =>
        (σ.repoHeap ρ).fullName != (σ.repoHeap ρ0).fullName).find?
        (fun ρ => !(σ.repoHeap ρ).adrs.isEmpty) = none →
      (removeRepository σ ρ0).currentlyEditedAdr = none ∧
      (removeRepository σ ρ0).currentRepository = none ∧
      (removeRepository σ ρ0).currentBranch = none) ∧
    (∀ ρ1, (σ.addedRepositories.filter fun ρ =>
        (σ.repoHeap ρ).fullName != (σ.repoHeap ρ0).fullName).find?
        (fun ρ => !(σ.repoHeap ρ).adrs.isEmpty) = some ρ1 →
      (isValidAdr (σ.adrHeap (((σ.repoHeap ρ1).adrs).headD 0)) = true →
        (removeRepository σ ρ0).currentlyEditedAdr =
          some (((σ.repoHeap ρ1).adrs).headD 0) ∧
        (removeRepository σ ρ0).currentRepository = some ρ1 ∧
        (removeRepository σ ρ0).currentBranch = some (σ.repoHeap ρ1).activeBranch) ∧
      (isValidAdr (σ.adrHeap (((σ.repoHeap ρ1).adrs).headD 0)) = false →
        (removeRepository σ ρ0).currentlyEditedAdr = none ∧
        (removeRepository σ ρ0).currentRepository = none ∧
        (removeRepository σ ρ0).currentBranch = none)) := by
  have hval := (hinv r hcur).1
  obtain ⟨ρc, hρcmem, hρcadrs, hρccur, _⟩ := (hinv r hcur).2
  have hc0 : ρc = ρ0 := by
    rw [hρccur] at hrepo
    exact Option.some.inj hrepo
  subst hc0
  have hok := removeRepository_repair_triggers σ r ρc hwf hcur hρcmem hρcadrs
  have hstep : removeRepository σ ρc =
      updateLocalStorageRepositories (openAnyAdr
        { σ with
          addedRepositories := σ.addedRepositories.filter fun ρ =>
            (σ.repoHeap ρ).fullName != (σ.repoHeap ρc).fullName
          currentlyEditedAdr := none, currentRepository := none, currentBranch := none }) := by
    simp only [removeRepository, assertSomeAdrIsOpened]
    rw [hok]
    simp
  constructor
  · intro hfind
    rw [hstep, openAnyAdr_none
      { σ with
        addedRepositories := σ.addedRepositories.filter fun ρ =>
          (σ.repoHeap ρ).fullName != (σ.repoHeap ρc).fullName
        currentlyEditedAdr := none, currentRepository := none, currentBranch := none }
      hfind]
    exact ⟨rfl, rfl, rfl⟩
  · intro ρ1 hfind
    constructor
    · intro hv
      rw [hstep]
      have h3 := openAnyAdr_valid_head
        { σ with
          addedRepositories := σ.addedRepositories.filter fun ρ =>
            (σ.repoHeap ρ).fullName != (σ.repoHeap ρc).fullName
          currentlyEditedAdr := none, currentRepository := none, currentBranch := none }
        ρ1 rfl hfind hv
      exact ⟨h3.1, h3.2.1, h3.2.2⟩
    · intro hv
      rw [hstep, openAnyAdr_invalid_head
        { σ with
          addedRepositories := σ.addedRepositories.filter fun ρ =>
            (σ.repoHeap ρ).fullName != (σ.repoHeap ρc).fullName
          currentlyEditedAdr := none, currentRepository := none, currentBranch := none }
        ρ1 hfind hv]
      exact ⟨rfl, rfl, rfl⟩

/-- Two repositories; the current ADR 0 lives in repository 0; the only ADR
of the surviving repository 1 is invalid (no originalMd key). -/
def exampleStoreD : StoreState :=
  { adrHeap := fun r =>
      if r = 0 then
        { originalMd := some (some "x"), editedMd := some "x",
          path := some "docs/adr/0000-a.md", id := 0 }
      else
        { originalMd := none, editedMd := some "y",
          path := some "docs/adr/0001-b.md", id := 1 }
    nextAdr := 2
    repoHeap := fun ρ =>
      if ρ = 0 then
        { fullName := "org/alpha", activeBranch := "main", adrs := [0],
          addedAdrs := none, deletedAdrs := none, isInstance := true }
      else
        { fullName := "org/beta", activeBranch := "dev", adrs := [1],
          addedAdrs := none, deletedAdrs := none, isInstance := true }
    nextRepo := 2
    addedRepositories := [0, 1]
    currentRepository := some 0
    currentBranch := some "main"
    currentlyEditedAdr := some 0
    mode := "basic", activeBranch := none, storageRepos := none, storageMode := none
    events := [] }

/-- Like exampleStoreD, but the ADR of repository 1 is valid. -/
def exampleStoreE : StoreState :=
  { exampleStoreD with
    adrHeap := fun r =>
      if r = 0 then
        { originalMd := some (some "x"), editedMd := some "x",
          path := some "docs/adr/0000-a.md", id := 0 }
      else
        { originalMd := some none, editedMd := some "y",
          path := some "docs/adr/0001-b.md", id := 1 } }

/-- exampleStoreD is a well-formed heap. -/
theorem exampleStoreD_wf : WellFormedStore exampleStoreD := by
  refine ⟨by decide, ?_, by decide⟩
  intro r hr
  have h0 : r = 0 := by
    have h := hr
    simp only [exampleStoreD, Option.some.injEq] at h
    omega
  subst h0
  decide

/-- exampleStoreD satisfies the selection invariant. -/
theorem exampleStoreD_inv : SelectionInvariant exampleStoreD := by
  intro r hr
  have h0 : r = 0 := by
    have h := hr
    simp only [exampleStoreD, Option.some.injEq] at h
    omega
  subst h0
  exact ⟨by decide, ⟨0, by decide, by decide, by decide, by decide⟩⟩

/-- exampleStoreE is a well-formed heap. -/
theorem exampleStoreE_wf : WellFormedStore exampleStoreE := by
  refine ⟨by decide, ?_, by decide⟩
  intro r hr
  have h0 : r = 0 := by
    have h := hr
    simp only [exampleStoreE, exampleStoreD, Option.some.injEq] at h
    omega
  subst h0
  decide

/-- exampleStoreE satisfies the selection invariant. -/
theorem exampleStoreE_inv : SelectionInvariant exampleStoreE := by
  intro r hr
  have h0 : r = 0 := by
    have h := hr
    simp only [exampleStoreE, exampleStoreD, Option.some.injEq] at h
    omega
  subst h0
  exact ⟨by decide, ⟨0, by decide, by decide, by decide, by decide⟩⟩

/-- The outcome C3 claims for removeRepository when the removed repository
held the current ADR: either another valid ADR is selected consistently, or
no repository with at least one ADR remains and the selection is cleared. -/
def c3ClaimHolds (τ : StoreState) : Prop :=
  (∃ r', τ.currentlyEditedAdr = some r' ∧ isValidAdr (τ.adrHeap r') = true ∧
    ∃ ρ, ρ ∈ τ.addedRepositories ∧ r' ∈ (τ.repoHeap ρ).adrs ∧
      τ.currentRepository = some ρ ∧ τ.currentBranch = some (τ.repoHeap ρ).activeBranch) ∨
  ((∀ ρ ∈ τ.addedRepositories, (τ.repoHeap ρ).adrs = []) ∧
    τ.currentlyEditedAdr = none ∧ τ.currentRepository = none ∧ τ.currentBranch = none)

/-- C3 is false on the code: removing repository 0 of exampleStoreD (which
holds the current ADR) clears the whole selection although the surviving
repository 1 still has one ADR — its ADR is invalid, so the repair gives up
instead of trying further: a third outcome the claim excludes. -/
theorem c3_counterexample :
    WellFormedStore exampleStoreD ∧ SelectionInvariant exampleStoreD ∧
    exampleStoreD.currentlyEditedAdr = some 0 ∧
    exampleStoreD.currentRepository = some 0 ∧
    0 ∈ (exampleStoreD.repoHeap 0).adrs ∧
    ¬ c3ClaimHolds (removeRepository exampleStoreD 0) := by
  refine ⟨exampleStoreD_wf, exampleStoreD_inv, rfl, rfl, by decide, ?_⟩
  rintro (⟨r', hr', _⟩ | ⟨hall, _⟩)
  · have hnone : (removeRepository exampleStoreD 0).currentlyEditedAdr = none := by decide
    rw [hnone] at hr'
    exact Option.noConfusion hr'
  · have h1 : (1 : Nat) ∈ (removeRepository exampleStoreD 0).addedRepositories := by decide
    have h2 := hall 1 h1
    have h3 : ((removeRepository exampleStoreD 0).repoHeap 1).adrs = [1] := by decide
    rw [h2] at h3
    exact List.noConfusion h3

/-- Witness for the amended C3 on exampleStoreE: removing repository 0
selects the valid first ADR of the surviving repository 1, with repository
and branch fields set consistently. -/
theorem c3_witness :
    WellFormedStore exampleStoreE ∧ SelectionInvariant exampleStoreE ∧
    (removeRepository exampleStoreE 0).currentlyEditedAdr = some 1 ∧
    (removeRepository exampleStoreE 0).currentRepository = some 1 ∧
    (removeRepository exampleStoreE 0).currentBranch = some "dev" := by
  have h := ((c3_amended_removeRepository exampleStoreE 0 0 exampleStoreE_wf
    exampleStoreE_inv rfl rfl).2 1 (by decide)).1 (by decide)
  refine ⟨exampleStoreE_wf, exampleStoreE_inv, ?_, h.2.1, ?_⟩
  · have h1 := h.1
    simpa [exampleStoreE, exampleStoreD] using h1
  · have h2 := h.2.2
    simpa [exampleStoreE, exampleStoreD] using h2

/-- Reading an updated heap. -/
theorem upd_apply (f : Nat → α) (i : Nat) (v : α) (j : Nat) :
    upd f i v j = if j = i then v else f j := rfl

/-- When the repair check passes, the current ADR exists, is valid, and is
contained in some added repository. -/
theorem adrIsOpenedOk_spec (τ : StoreState) (h : adrIsOpenedOk τ = true) :
    ∃ r, τ.currentlyEditedAdr = some r ∧ isValidAdr (τ.adrHeap r) = true ∧
      ∃ ρ, ρ ∈ τ.addedRepositories ∧ r ∈ (τ.repoHeap ρ).adrs := by
  unfold adrIsOpenedOk at h
  cases hc : τ.currentlyEditedAdr with
  | none =>
    simp only [hc] at h
    exact Bool.noConfusion h
  | some r =>
    simp only [hc, Bool.and_eq_true, List.any_eq_true] at h
    obtain ⟨hval, ρ, hρ, hcont⟩ := h
    exact ⟨r, rfl, hval, ρ, hρ, by simpa using hcont⟩

/-- The successful branch of openAdr, as an equation. -/
theorem openAdr_success (τ : StoreState) (a ρf : Nat)
    (hne : some a ≠ τ.currentlyEditedAdr)
    (hf : τ.addedRepositories.find? (fun ρ0 => (τ.repoHeap ρ0).adrs.contains a) = some ρf)
    (hv : isValidAdr (τ.adrHeap a) = true) :
    openAdr τ (some a) =
      { τ with
        currentRepository := some ρf
        currentBranch := some (τ.repoHeap ρf).activeBranch
        currentlyEditedAdr := some a
        events := τ.events ++ [StoreEvent.openAdrEvent a] } := by
  have hf' : τ.addedRepositories.find?
      (fun ρ => decide (a ∈ (τ.repoHeap ρ).adrs)) = some ρf := by
    simpa using hf
  simp [openAdr, hf', hv, hne]

/-- openAdr preserves the selection invariant. -/
theorem openAdr_inv (τ : StoreState) (a : Option Nat)
    (hinv : SelectionInvariant τ) : SelectionInvariant (openAdr τ a) := by
  rcases openAdr_cases τ a with he | ⟨r, ρ, _, hf, hv, he⟩
  · rw [he]; exact hinv
  · rw [he]
    intro r' hr'
    obtain rfl : r = r' := by injection hr'
    refine ⟨hv, ρ, List.mem_of_find?_eq_some hf, ?_, rfl, rfl⟩
    have := List.find?_some hf
    simpa using this

/-- Opening a valid ADR contained in some added repository while it is not
the current one establishes the selection invariant outright. -/
theorem openAdr_some_inv (τ : StoreState) (a : Nat)
    (hex : ∃ ρ ∈ τ.addedRepositories, a ∈ (τ.repoHeap ρ).adrs)
    (hv : isValidAdr (τ.adrHeap a) = true)
    (hne : some a ≠ τ.currentlyEditedAdr) :
    SelectionInvariant (openAdr τ (some a)) := by
  have hsome : (τ.addedRepositories.find?
      (fun ρ0 => (τ.repoHeap ρ0).adrs.contains a)).isSome := by
    rw [List.find?_isSome]
    obtain ⟨ρ, hρ, hm⟩ := hex
    exact ⟨ρ, hρ, by simpa using hm⟩
  obtain ⟨ρf, hρf⟩ := Option.isSome_iff_exists.mp hsome
  rw [openAdr_success τ a ρf hne hρf hv]
  intro r' hr'
  obtain rfl : a = r' := by injection hr'
  refine ⟨hv, ρf, List.mem_of_find?_eq_some hρf, ?_, rfl, rfl⟩
  have := List.find?_some hρf
  simpa using this

/-- openAnyAdr preserves the selection invariant. -/
theorem openAnyAdr_inv (τ : StoreState) (hinv : SelectionInvariant τ) :
    SelectionInvariant (openAnyAdr τ) := by
  unfold openAnyAdr
  cases hf : τ.addedRepositories.find? (fun ρ => !(τ.repoHeap ρ).adrs.isEmpty) with
  | none => simp only [hf]; exact hinv
  | some ρ => simp only [hf]; exact openAdr_inv τ _ hinv

/-- The persistence write preserves the selection invariant. -/
theorem uLSR_inv (τ : StoreState) (hinv : SelectionInvariant τ) :
    SelectionInvariant (updateLocalStorageRepositories τ) :=
  fun r hr => hinv r hr

/-- assertSomeAdrIsOpened yields an invariant state provided the state is
invariant whenever its own check passes; the repair branch clears the
selection and reopens, which is invariant unconditionally. -/
theorem assert_inv_of_ok (τ : StoreState)
    (h : adrIsOpenedOk τ = true → SelectionInvariant τ) :
    SelectionInvariant (assertSomeAdrIsOpened τ) := by
  unfold assertSomeAdrIsOpened
  split
  · exact h (by assumption)
  · apply openAnyAdr_inv
    intro r hr
    simp at hr

/-- An element of a splice-removal result is an element of the list. -/
theorem mem_of_mem_jsSpliceRemove1 (l : List α) (i : Int) (x : α)
    (hx : x ∈ jsSpliceRemove1 l i) : x ∈ l := by
  unfold jsSpliceRemove1 at hx
  rcases List.mem_append.mp hx with h | h
  · exact List.mem_of_mem_take h
  · exact List.mem_of_mem_drop h

/-- The replacement value is an element of a splice-replacement result. -/
theorem mem_jsSpliceReplace1_self (l : List Nat) (i : Int) (v : Nat) :
    v ∈ jsSpliceReplace1 l i v := by
  unfold jsSpliceReplace1
  simp

/-- An element of the list other than the one at the replaced position
survives a splice-replacement. -/
theorem mem_jsSpliceReplace1_of_ne (l : List Nat) (i : Nat) (hi : i < l.length)
    (x v : Nat) (hx : x ∈ l) (hne : x ≠ l.get ⟨i, hi⟩) :
    x ∈ jsSpliceReplace1 l (i : Int) v := by
  have hstart : jsSpliceStart l.length (i : Int) = i := by
    unfold jsSpliceStart
    rw [if_neg (by omega)]
    simp
    omega
  unfold jsSpliceReplace1
  rw [hstart]
  have hdecomp : l = l.take i ++ l.drop i := (List.take_append_drop i l).symm
  rw [List.drop_eq_getElem_cons hi] at hdecomp
  rw [hdecomp] at hx
  rcases List.mem_append.mp hx with h | h
  · exact List.mem_append_left _ (List.mem_append_left _ h)
  · rcases List.mem_cons.mp h with h | h
    · exact absurd (h.trans (List.get_eq_getElem l ⟨i, hi⟩).symm) hne
    · exact List.mem_append_right _ h

/-- jsFindIndex under a successful findIdx?. -/
theorem jsFindIndex_eq_of_findIdx? (l : List α) (p : α → Bool) (i : Nat)
    (h : l.findIdx? p = some i) : jsFindIndex l p = (i : Int) := by
  unfold jsFindIndex
  rw [h]

/-- jsIndex at a nonnegative in-range position. -/
theorem jsIndex_ofNat (l : List α) (i : Nat) (hi : i < l.length) :
    jsIndex l (i : Int) = some (l.get ⟨i, hi⟩) := by
  unfold jsIndex
  rw [if_neg (by omega)]
  simp [List.get?_eq_getElem?, List.getElem?_eq_getElem hi]

/-- addRepositories preserves the selection invariant: either it throws
before mutating, or it appends repositories (which keeps the container of
the current ADR) and runs the repair. -/
theorem addRepositories_inv (τ : StoreState) (l : List Nat)
    (hinv : SelectionInvariant τ) : SelectionInvariant (addRepositories τ l).1 := by
  simp only [addRepositories]
  split
  · exact hinv
  · apply assert_inv_of_ok
    intro _
    apply uLSR_inv
    intro r hr
    obtain ⟨hval, ρ, hρ, hadrs, hcur, hbr⟩ := hinv r hr
    exact ⟨hval, ρ, List.mem_append_left _ hρ, hadrs, hcur, hbr⟩

/-- removeRepository preserves the selection invariant on well-formed
states: when the repair check still passes, ownership forces the containing
repository found by the check to be the current one, which therefore
survived the filter. -/
theorem removeRepository_inv (σ : StoreState) (ρt : Nat)
    (hwf : WellFormedStore σ) (hinv : SelectionInvariant σ) :
    SelectionInvariant (removeRepository σ ρt) := by
  simp only [removeRepository]
  apply uLSR_inv
  apply assert_inv_of_ok
  intro hok2
  intro r hr
  obtain ⟨hval, ρc, hρcmem, hρcadrs, hρccur, hρcbr⟩ := hinv r hr
  obtain ⟨r0, hr0cur, _, ρ, hρmem, hρadrs⟩ := adrIsOpenedOk_spec _ hok2
  obtain rfl : r0 = r := by
    rw [hr] at hr0cur
    exact (Option.some.inj hr0cur).symm
  have hρσ : ρ ∈ σ.addedRepositories := (List.mem_filter.mp hρmem).1
  have hρeq : ρ = ρc := by
    by_contra hne
    exact hwf.2.2 ρ hρσ ρc hρcmem hne r0 hρadrs hρcadrs
  subst hρeq
  exact ⟨hval, ρ, hρmem, hρadrs, hρccur, hρcbr⟩

/-- deleteAdr preserves the selection invariant on well-formed states: the
splice only shrinks one adrs list, validity is untouched, and when the
repair check passes the containing repository it found must be the current
one by ownership. -/
theorem deleteAdr_inv (σ : StoreState) (adr repo : Nat)
    (hwf : WellFormedStore σ) (hinv : SelectionInvariant σ) :
    SelectionInvariant (deleteAdr σ adr repo) := by
  simp only [deleteAdr]
  apply assert_inv_of_ok
  intro hok2
  intro r hr
  obtain ⟨hval, ρc, hρcmem, hρcadrs, hρccur, hρcbr⟩ := hinv r hr
  obtain ⟨r0, hr0cur, _, ρ, hρmem, hρadrs⟩ := adrIsOpenedOk_spec _ hok2
  obtain rfl : r0 = r := by
    rw [hr] at hr0cur
    exact (Option.some.inj hr0cur).symm
  have hsub : ∀ x, r0 ∈ ((upd σ.repoHeap repo
      { { σ.repoHeap repo with
          deletedAdrs := some ((σ.repoHeap repo).deletedAdrs.getD []) } with
        adrs := jsSpliceRemove1 (σ.repoHeap repo).adrs
          (jsFindIndex (σ.repoHeap repo).adrs fun x => x == adr) }) x).adrs →
      r0 ∈ (σ.repoHeap x).adrs := by
    intro x hx
    rw [upd_apply] at hx
    by_cases hxr : x = repo
    · rw [if_pos hxr] at hx
      subst hxr
      exact mem_of_mem_jsSpliceRemove1 _ _ _ hx
    · rwa [if_neg hxr] at hx
  have hρeq : ρ = ρc := by
    by_contra hne
    exact hwf.2.2 ρ ((by exact hρmem) : ρ ∈ σ.addedRepositories) ρc hρcmem hne r0
      (hsub ρ hρadrs) hρcadrs
  subst hρeq
  refine ⟨hval, ρ, hρmem, hρadrs, hρccur, ?_⟩
  rw [hρcbr]
  simp only [upd]
  by_cases hxr : ρ = repo
  · simp [hxr]
  · simp [hxr]

/-- createNewAdr preserves the selection invariant on well-formed states:
the fresh ADR cell lies above every reachable reference, and the mutated
repository only grows its adrs list. -/
theorem createNewAdr_inv (tmpl : String) (σ : StoreState) (repo : Nat)
    (hwf : WellFormedStore σ) (hinv : SelectionInvariant σ) :
    SelectionInvariant (createNewAdr tmpl σ repo).1 := by
  simp only [createNewAdr]
  split
  · intro r hr
    obtain ⟨hval, ρc, hρcmem, hρcadrs, hρccur, hρcbr⟩ := hinv r hr
    have hrlt : r < σ.nextAdr := hwf.2.1 r hr
    refine ⟨?_, ρc, hρcmem, ?_, hρccur, ?_⟩
    · simp only [upd]
      rw [if_neg (by omega : ¬ r = σ.nextAdr)]
      exact hval
    · simp only [upd]
      by_cases h : ρc = repo
      · simp only [if_pos h]
        refine List.mem_append_left _ ?_
        rw [← h]
        exact hρcadrs
      · simp only [if_neg h]
        exact hρcadrs
    · rw [hρcbr]
      simp only [upd]
      by_cases h : ρc = repo
      · simp [h]
      · simp [h]
  · exact uLSR_inv σ hinv

/-- updateMdOfCurrentAdr preserves the selection invariant: it throws before
mutating when nothing is open, and otherwise only rewrites the editedMd and
possibly the path of the current (valid) ADR object, keeping it valid. -/
theorem updateMdOfCurrentAdr_inv (n2s : String → String) (σ : StoreState) (md : String)
    (hinv : SelectionInvariant σ) :
    SelectionInvariant (updateMdOfCurrentAdr n2s σ md).1 := by
  cases hcur : σ.currentlyEditedAdr with
  | none =>
    simp only [updateMdOfCurrentAdr, hcur]
    exact hinv
  | some r =>
    simp only [updateMdOfCurrentAdr, hcur]
    obtain ⟨hval0, ρc, hρcmem, hρcadrs, hρccur, hρcbr⟩ := hinv r hcur
    simp only [isValidAdr, Bool.and_eq_true] at hval0
    split
    · split
      · intro r' hr'
        have h2 : some r = some r' := hr'
        obtain rfl : r = r' := Option.some.inj h2
        refine ⟨?_, ρc, hρcmem, hρcadrs, hρccur, hρcbr⟩
        simp [upd, isValidAdr]
        exact ⟨hval0.1.1, hval0.2⟩
      · apply uLSR_inv
        intro r' hr'
        have h2 : some r = some r' := hr'
        obtain rfl : r = r' := Option.some.inj h2
        refine ⟨?_, ρc, hρcmem, hρcadrs, hρccur, hρcbr⟩
        simp [upd, isValidAdr]
        exact hval0.1.1
    · apply uLSR_inv
      intro r' hr'
      have h2 : some r = some r' := hr'
      obtain rfl : r = r' := Option.some.inj h2
      refine ⟨?_, ρc, hρcmem, hρcadrs, hρccur, hρcbr⟩
      simp [upd, isValidAdr]
      exact ⟨hval0.1.1, hval0.2⟩

/-- openAdrBy preserves the selection invariant: a failed lookup or a thrown
path read changes nothing, and a successful one goes through openAdr. -/
theorem openAdrBy_inv (σ : StoreState) (rn an : String)
    (hinv : SelectionInvariant σ) : SelectionInvariant (openAdrBy σ rn an).1 := by
  unfold openAdrBy
  split
  · exact hinv
  · split
    · exact hinv
    · exact hinv
    · exact openAdr_inv σ _ hinv

/-- reload preserves the selection invariant on well-formed states: parsing
allocates only fresh cells, validation failure discards the parsed data, and
the add path reuses addRepositories. -/
theorem reload_inv (σ : StoreState)
    (hwf : WellFormedStore σ) (hinv : SelectionInvariant σ) :
    SelectionInvariant (reload σ).1 := by
  cases hsr : σ.storageRepos with
  | none =>
    simp only [reload, hsr]
    exact fun r hr => hinv r hr
  | some data =>
    have hspec := allocRepos_spec data σ
    have hinvp : SelectionInvariant (allocRepos σ data).1 := by
      intro r hr
      rw [hspec.2.2.2.2.2.2.2.2.2.1] at hr
      obtain ⟨hval, ρc, hρcmem, hρcadrs, hρccur, hρcbr⟩ := hinv r hr
      have hρlt : ρc < σ.nextRepo := (hwf.1 ρc hρcmem).1
      have hrlt : r < σ.nextAdr := hwf.2.1 r hr
      refine ⟨?_, ρc, ?_, ?_, ?_, ?_⟩
      · rw [hspec.2.2.2.2.1 r hrlt]
        exact hval
      · rw [hspec.2.2.2.2.2.2.1]
        exact hρcmem
      · rw [hspec.2.2.2.1 ρc hρlt]
        exact hρcadrs
      · rw [hspec.2.2.2.2.2.2.2.1]
        exact hρccur
      · rw [hspec.2.2.2.2.2.2.2.2.1, hspec.2.2.2.1 ρc hρlt]
        exact hρcbr
    simp only [reload, hsr]
    by_cases hvalid : isValidRepoList (allocRepos σ data).1 (allocRepos σ data).2 = true
    · rw [if_pos hvalid]
      have hinv2 := addRepositories_inv (allocRepos σ data).1 (allocRepos σ data).2 hinvp
      rcases hpair : addRepositories (allocRepos σ data).1 (allocRepos σ data).2 with ⟨σ', e⟩
      rw [hpair] at hinv2
      cases e with
      | none => exact fun r hr => hinv2 r hr
      | some e => exact hinv2
    · rw [if_neg hvalid]
      exact fun r hr => hinvp r hr

/-- updateRepository preserves the selection invariant under its side
conditions: a repository with the matching fullName exists, and when the
replaced entry held the current ADR the reopened ADR (same path, in the
passed repository) is valid and distinct from the current one. -/
theorem updateRepository_inv (σ : StoreState) (ρu : Nat)
    (hwf : WellFormedStore σ) (hinv : SelectionInvariant σ)
    (hok : opOK σ (StoreOp.updateRepositoryOp ρu)) :
    SelectionInvariant (updateRepository σ ρu).1 := by
  obtain ⟨i, hfi, hcond⟩ := hok
  have hlt : i < σ.addedRepositories.length :=
    (List.findIdx?_eq_some_iff_findIdx_eq.mp hfi).1
  have hidx := jsFindIndex_eq_of_findIdx? _ _ i hfi
  have hold := jsIndex_ofNat σ.addedRepositories i hlt
  simp only [updateRepository, hidx, hold]
  cases hcur : σ.currentlyEditedAdr with
  | none =>
    simp only [hcur]
    apply uLSR_inv
    intro r hr
    have hr' : (none : Option Nat) = some r := hr
    exact Option.noConfusion hr'
  | some r =>
    simp only [hcur]
    by_cases hcont : (σ.repoHeap (σ.addedRepositories.get ⟨i, hlt⟩)).adrs.contains r = true
    · rw [if_pos hcont]
      obtain ⟨a, hfound, hane, hav⟩ := hcond r (σ.addedRepositories.get ⟨i, hlt⟩)
        hcur (by rw [List.get?_eq_get hlt]) hcont
      rw [hfound]
      apply uLSR_inv
      apply openAdr_some_inv
      · exact ⟨ρu, mem_jsSpliceReplace1_self _ _ _, List.mem_of_find?_eq_some hfound⟩
      · exact hav
      · intro hcontra
        have h2 : some a = some r := hcontra
        exact hane (Option.some.inj h2)
    · rw [if_neg hcont]
      apply uLSR_inv
      intro r' hr'
      have hr'' : some r = some r' := hr'
      obtain rfl : r = r' := Option.some.inj hr''
      obtain ⟨hval, ρc, hρcmem, hρcadrs, hρccur, hρcbr⟩ := hinv r hcur
      have hρcne : ρc ≠ σ.addedRepositories.get ⟨i, hlt⟩ := by
        intro he
        rw [← he] at hcont
        exact hcont (by simpa using hρcadrs)
      refine ⟨hval, ρc, ?_, hρcadrs, hρccur, hρcbr⟩
      exact mem_jsSpliceReplace1_of_ne _ i hlt _ _ hρcmem hρcne

/-- C1 as the code has it: on a well-formed state, every public operation
preserves the selection invariant except updateRepository, which needs its
side conditions (a matching fullName exists, and when the replaced entry
holds the current ADR the passed repository carries a valid ADR, distinct
from the current one, at the current ADR's path); all other operations need
no side condition. -/
theorem c1_amended_selection_invariant (n2s : String → String) (tmpl : String)
    (σ : StoreState) (op : StoreOp)
    (hwf : WellFormedStore σ) (hinv : SelectionInvariant σ) (hok : opOK σ op) :
    SelectionInvariant (applyOp n2s tmpl σ op) := by
  cases op with
  | reloadOp => exact reload_inv σ hwf hinv
  | updateLocalStorageRepositoriesOp => exact uLSR_inv σ hinv
  | addRepositoriesOp l => exact addRepositories_inv σ l hinv
  | removeRepositoryOp ρ => exact removeRepository_inv σ ρ hwf hinv
  | updateRepositoryOp ρ => exact updateRepository_inv σ ρ hwf hinv hok
  | setActiveBranchOp b => exact fun r hr => hinv r hr
  | assertSomeAdrIsOpenedOp => exact assert_inv_of_ok σ (fun _ => hinv)
  | openAnyAdrOp => exact openAnyAdr_inv σ hinv
  | openAdrByOp rn an => exact openAdrBy_inv σ rn an hinv
  | openAdrOp a => exact openAdr_inv σ a hinv
  | updateMdOfCurrentAdrOp md => exact updateMdOfCurrentAdr_inv n2s σ md hinv
  | createNewAdrOp ρ => exact createNewAdr_inv tmpl σ ρ hwf hinv
  | deleteAdrOp a ρ => exact deleteAdr_inv σ a ρ hwf hinv
  | setModeOp m =>
    simp only [applyOp, setMode]
    split
    · exact fun r hr => hinv r hr
    · exact hinv

/-- One valid selected ADR in repository 0; every other repository object in
the heap carries the same fullName but an empty adrs list. -/
def exampleStoreF : StoreState :=
  { adrHeap := fun _ =>
      { originalMd := some (some "x"), editedMd := some "x",
        path := some "docs/adr/0000-a.md", id := 0 }
    nextAdr := 1
    repoHeap := fun ρ =>
      if ρ = 0 then
        { fullName := "org/alpha", activeBranch := "main", adrs := [0],
          addedAdrs := none, deletedAdrs := none, isInstance := true }
      else
        { fullName := "org/alpha", activeBranch := "main", adrs := [],
          addedAdrs := none, deletedAdrs := none, isInstance := true }
    nextRepo := 6
    addedRepositories := [0]
    currentRepository := some 0
    currentBranch := some "main"
    currentlyEditedAdr := some 0
    mode := "basic", activeBranch := none, storageRepos := none, storageMode := none
    events := [] }

/-- C1 as frozen is false on the code: from the well-formed, invariant state
exampleStoreF, updateRepository with object 5 (same fullName, no ADR at the
current path) replaces the repository holding the current ADR, the reopen
attempt silently fails inside openAdr, and the store is left holding an
edited record whose parent repository is no longer in addedRepositories. -/
theorem c1_counterexample :
    WellFormedStore exampleStoreF ∧ SelectionInvariant exampleStoreF ∧
    ¬ SelectionInvariant
        (applyOp (fun s => s) "" exampleStoreF (StoreOp.updateRepositoryOp 5)) := by
  refine ⟨⟨by decide, ?_, by decide⟩, ?_, ?_⟩
  · intro r hr
    have h2 : some 0 = some r := hr
    obtain rfl : (0 : Nat) = r := Option.some.inj h2
    decide
  · intro r hr
    have h2 : some 0 = some r := hr
    obtain rfl : (0 : Nat) = r := Option.some.inj h2
    exact ⟨by decide, ⟨0, by decide, by decide, by decide, by decide⟩⟩
  · intro h
    have h0 : (applyOp (fun s => s) "" exampleStoreF
        (StoreOp.updateRepositoryOp 5)).currentlyEditedAdr = some 0 := by decide
    obtain ⟨_, ρ, hρmem, hρadrs, _, _⟩ := h 0 h0
    have hadded : (applyOp (fun s => s) "" exampleStoreF
        (StoreOp.updateRepositoryOp 5)).addedRepositories = [5] := by decide
    rw [hadded] at hρmem
    have hρ5 : ρ = 5 := by simpa using hρmem
    subst hρ5
    have hadrs : ((applyOp (fun s => s) "" exampleStoreF
        (StoreOp.updateRepositoryOp 5)).repoHeap 5).adrs = [] := by decide
    rw [hadrs] at hρadrs
    exact List.not_mem_nil _ hρadrs

/-- Witness for the amended C1 at a concrete input: updateRepository with
object 5 (fullName of repository 1, which does not hold the current ADR)
satisfies the side conditions on exampleStoreE and preserves the selection
invariant. -/
theorem c1_witness :
    WellFormedStore exampleStoreE ∧ SelectionInvariant exampleStoreE ∧
    opOK exampleStoreE (StoreOp.updateRepositoryOp 5) ∧
    SelectionInvariant
      (applyOp (fun s => s) "" exampleStoreE (StoreOp.updateRepositoryOp 5)) := by
  have hok : opOK exampleStoreE (StoreOp.updateRepositoryOp 5) := by
    refine ⟨1, by decide, ?_⟩
    intro r ρold hr hold hcont
    exfalso
    have h2 : some 0 = some r := hr
    obtain rfl : (0 : Nat) = r := Option.some.inj h2
    have h3 : some 1 = some ρold := hold
    obtain rfl : (1 : Nat) = ρold := Option.some.inj h3
    exact absurd hcont (by decide)
  exact ⟨exampleStoreE_wf, exampleStoreE_inv, hok,
    c1_amended_selection_invariant (fun s => s) "" exampleStoreE
      (StoreOp.updateRepositoryOp 5) exampleStoreE_wf exampleStoreE_inv hok⟩

end AdrStore
